import Mathlib

/-!
Verification development for the BIM viewer's metadata correlation and
categorization engine (`BimViewer.js`).  The JavaScript source is embedded
shallowly: strings are `String`/`List Char`, the JS regexes are modelled as
explicit leftmost-match scanners, `Map` objects become association lists kept
in insertion order, the three.js scene graph becomes a rose tree `SNode`, and
the JSON metadata payload becomes the inductive `Json`.  Stateful fragments
(visibility toggles) are modelled by explicit state passing.
-/

/-! ## String utilities, mirroring the JavaScript string operations used -/

/-- ASCII lower-casing of a character list, mirroring `String.prototype.toLowerCase`
on the ASCII inputs the engine deals with. -/
def lcList (l : List Char) : List Char := l.map Char.toLower

/-- Case-sensitive list "starts with": `listPre p l` is true when `p` is an
initial segment of `l`. -/
def listPre : List Char → List Char → Bool
  | [], _ => true
  | _ :: _, [] => false
  | a :: as, b :: bs => a == b && listPre as bs

/-- Substring containment on character lists, mirroring `String.prototype.includes`. -/
def listContains (h n : List Char) : Bool :=
  listPre n h ||
    match h with
    | [] => false
    | _ :: t => listContains t n

/-- JS whitespace characters relevant here (ASCII subset of `\s`). -/
def isWsChar (c : Char) : Bool := c == ' ' || c == '\t' || c == '\n' || c == '\r'

/-- The separator class `[-_\s]` of the name-cleanup regexes. -/
def isSep (c : Char) : Bool := c == '-' || c == '_' || isWsChar c

/-- Mirror of `String.prototype.trim` (whitespace from both ends). -/
def trimChars (l : List Char) : List Char :=
  ((l.dropWhile isWsChar).reverse.dropWhile isWsChar).reverse

/-- Hex-digit class `[a-f0-9]` with the `i` flag, i.e. upper-case hex accepted. -/
def isHexDigit (c : Char) : Bool :=
  ('0' ≤ c && c ≤ '9') || ('a' ≤ c && c ≤ 'f') || ('A' ≤ c && c ≤ 'F')

/-- Consume exactly `n` characters satisfying `p`, returning them and the rest. -/
def takeExact (p : Char → Bool) : Nat → List Char → Option (List Char × List Char)
  | 0, l => some ([], l)
  | _ + 1, [] => none
  | n + 1, c :: l =>
    if p c then (takeExact p n l).map (fun tr => (c :: tr.1, tr.2)) else none

/-- Consume a literal dash. -/
def expectDash : List Char → Option (List Char)
  | '-' :: r => some r
  | _ => none

/-- Try to match the GUID regex
`/([a-f0-9]{8}-[a-f0-9]{4}-[a-f0-9]{4}-[a-f0-9]{4}-[a-f0-9]{12}(?:-[a-f0-9]{8})?)/i`
anchored at the head of `l`, returning the matched characters (original case).
The optional trailing `-[a-f0-9]{8}` is greedy, as in the regex. -/
def guidAt (l : List Char) : Option (List Char) := do
  let (s1, r1) ← takeExact isHexDigit 8 l
  let r1 ← expectDash r1
  let (s2, r2) ← takeExact isHexDigit 4 r1
  let r2 ← expectDash r2
  let (s3, r3) ← takeExact isHexDigit 4 r2
  let r3 ← expectDash r3
  let (s4, r4) ← takeExact isHexDigit 4 r3
  let r4 ← expectDash r4
  let (s5, r5) ← takeExact isHexDigit 12 r4
  let core := s1 ++ '-' :: s2 ++ '-' :: s3 ++ '-' :: s4 ++ '-' :: s5
  match expectDash r5 with
  | some r6 =>
    match takeExact isHexDigit 8 r6 with
    | some (s6, _) => some (core ++ '-' :: s6)
    | none => some core
  | none => some core

/-- Leftmost match of the GUID regex in `l` (the JS engine scans positions left
to right and takes the first position at which the pattern matches). -/
def findGuid : List Char → Option (List Char)
  | [] => none
  | c :: t =>
    match guidAt (c :: t) with
    | some g => some g
    | none => findGuid t

/-- Leftmost-then-greedy match of `/\d{4,}/`: the first position at which at
least four consecutive digits start, extended through the whole digit run. -/
def findDigitRun : List Char → Option (List Char)
  | [] => none
  | c :: t =>
    if 4 ≤ ((c :: t).takeWhile Char.isDigit).length
    then some ((c :: t).takeWhile Char.isDigit)
    else findDigitRun t

/-- Case-insensitive prefix stripping: if `p` (case-insensitively) heads `l`,
return the remainder of `l`. -/
def stripCIPre : List Char → List Char → Option (List Char)
  | [], l => some l
  | _ :: _, [] => none
  | p :: ps, c :: cs => if c.toLower == p.toLower then stripCIPre ps cs else none

/-- First pattern of `pats` (in order) that heads `l` case-insensitively,
returning the remainder; mirrors regex alternation order. -/
def findFirstPre : List String → List Char → Option (List Char)
  | [], _ => none
  | t :: ts, l =>
    match stripCIPre t.data l with
    | some r => some r
    | none => findFirstPre ts l

/-- The alternation `(?:Element_|ID_|element-|id-)` anchored at the head of
`l`, followed by `(\d+)`: returns the captured digits. -/
def idPatternAt (l : List Char) : Option (List Char) :=
  match findFirstPre ["Element_", "ID_", "element-", "id-"] l with
  | some rest =>
    let ds := rest.takeWhile Char.isDigit
    if ds.isEmpty then none else some ds
  | none => none

/-- Leftmost match of `/(?:Element_|ID_|element-|id-)(\d+)/i`, returning the
captured digit group. -/
def findIdPattern : List Char → Option (List Char)
  | [] => none
  | c :: t =>
    match idPatternAt (c :: t) with
    | some d => some d
    | none => findIdPattern t

/-! ## Name cleanup (`extractMeaningfulName`) -/

/-- The generic-token alternation of the two cleanup regexes, in the source's
alternation order. -/
def genericTokens : List String :=
  ["node", "mesh", "geometry", "object", "element", "shape", "geom"]

/-- Mirror of `.replace(/^(node|mesh|geometry|object|element|shape|geom)[-_\s]*/gi, '')`:
the `^` anchor makes at most one replacement happen, stripping the first
matching token (alternation order) plus following separators. -/
def stripLeadingGeneric (l : List Char) : List Char :=
  match findFirstPre genericTokens l with
  | some r => r.dropWhile isSep
  | none => l

/-- Mirror of `.replace(/[-_\s]*(node|mesh|geometry|object|element|shape|geom)$/gi, '')`:
the `$` anchor makes at most one replacement happen; the leftmost match strips
one trailing token plus the maximal run of separators before it. -/
def stripTrailingGeneric (l : List Char) : List Char :=
  match findFirstPre (genericTokens.map (fun s => String.mk s.data.reverse)) l.reverse with
  | some r => (r.dropWhile isSep).reverse
  | none => l

/-- Mirror of `.replace(/^(ID|id)[-_\s]*/gi, '')`. -/
def stripLeadingId (l : List Char) : List Char :=
  match stripCIPre "id".data l with
  | some r => r.dropWhile isSep
  | none => l

/-- Shallow embedding of `extractMeaningfulName` (BimViewer.js): the digit-run
rule fires first; otherwise generic tokens are stripped from both ends, a
leading ID marker is stripped, and the result survives only if longer than two
characters and not literally "node"/"unnamed" (case-insensitive).
`cleanedName` is the `cleaned` intermediate of the source. -/
def cleanedName (str : String) : List Char :=
  trimChars (stripLeadingId (stripTrailingGeneric (stripLeadingGeneric str.data)))

def extractMeaningfulName (str : String) : Option String :=
  if str = "" then none
  else
    match findDigitRun str.data with
    | some run => some ("Element_" ++ String.mk run)
    | none =>
      if 2 < (cleanedName str).length && lcList (cleanedName str) ≠ "node".data &&
          lcList (cleanedName str) ≠ "unnamed".data
      then some (String.mk (cleanedName str))
      else none

/-! ## Scene-graph data model (read-only view of the three.js nodes) -/

/-- A three.js material as far as this engine reads it. -/
structure MMaterial where
  name : String
deriving DecidableEq

/-- The `material` slot of a mesh: absent, a single material, or an array of
materials (multi-material nodes). `node.material?.name` is `undefined` on the
array case, which several source functions rely on. -/
inductive MaterialSlot where
  | free
  | single (m : MMaterial)
  | many (ms : List MMaterial)
deriving DecidableEq

/-- A buffer geometry as far as this engine reads it: its name, the index
buffer's element count when indexed, and the position attribute's count. -/
structure MGeometry where
  name : String
  indexCount : Option Nat
  posCount : Nat
deriving DecidableEq

/-- The `userData` bag fields this engine reads or writes. -/
structure MUserData where
  isText : Bool := false
  revitId : Option String := none
  guid : Option String := none
  elementId : Option String := none
deriving DecidableEq

/-- The per-node attributes of a scene node. `id` is the numeric three.js id,
`uuid` the stable identity token. -/
structure NodeData where
  name : String
  uuid : String
  typ : String
  isMesh : Bool
  id : Int
  visible : Bool
  geometry : Option MGeometry
  material : MaterialSlot
  userData : MUserData
deriving DecidableEq

/-- The scene graph: a rose tree of nodes.  `traverse` in three.js visits a
node then its children in order (preorder), which the traversal functions
below mirror.  Parent back-references are modelled by passing the ancestor
chain (nearest first) alongside a node; the render scene that the model is
mounted into has type `Scene` and empty name, so walks stopping at a missing
parent coincide with the source's stopping at the enclosing `Scene`. -/
inductive SNode where
  | mk (data : NodeData) (children : List SNode)

/-- Node data of the root of a subtree. -/
def SNode.data : SNode → NodeData
  | .mk d _ => d

/-- Children of the root of a subtree. -/
def SNode.children : SNode → List SNode
  | .mk _ cs => cs

/-! ## Metadata records and the element matcher -/

/-- One parsed metadata record (see `parseJsonMetadata`). -/
structure MetaRecord where
  elementId : String
  externalId : String
  familyName : String
  typeName : String
  category : String
  displayName : String
deriving DecidableEq

/-- The metadata index: a `Map` from stringified element id to record, kept as
an association list in the Map's insertion order. -/
def MIndex : Type := List (String × MetaRecord)

instance : DecidableEq MIndex := by
  unfold MIndex
  infer_instance

/-- `node.material?.name`: defined only for a single material. -/
def matName : MaterialSlot → Option String
  | .single m => some m.name
  | _ => none

/-- An optional string passed through `.filter(s => s)`: dropped when absent
or empty (falsy). -/
def optStr : Option String → List String
  | some s => if s = "" then [] else [s]
  | none => []

/-- The `searchStrings` array of `getElementMetadata`: name, geometry name,
material name, stringified numeric id, and the three userData identifiers,
with falsy entries filtered out. -/
def nodeSearchStrings (n : NodeData) : List String :=
  optStr (some n.name) ++ optStr (n.geometry.map MGeometry.name) ++
    optStr (matName n.material) ++ optStr (some (toString n.id)) ++
    optStr n.userData.revitId ++ optStr n.userData.guid ++ optStr n.userData.elementId

/-- Whether a record's `externalId` (case-insensitively) contains the
lower-cased GUID candidate `g`, with the source's truthiness guard. -/
def extIdMatches (r : MetaRecord) (g : List Char) : Bool :=
  r.externalId ≠ "" && listContains (lcList r.externalId.data) g

/-- The numeric element-id candidate of `getElementMetadata`: first id-pattern
match in the node name, else the geometry name, else the material name, else
the raw `userData.elementId` if truthy. -/
def numericCandidate (n : NodeData) : Option String :=
  (if n.name ≠ "" then (findIdPattern n.name.data).map String.mk else none) <|>
  (match n.geometry with
   | some g => if g.name ≠ "" then (findIdPattern g.name.data).map String.mk else none
   | none => none) <|>
  (match matName n.material with
   | some s => if s ≠ "" then (findIdPattern s.data).map String.mk else none
   | none => none) <|>
  (match n.userData.elementId with
   | some s => if s ≠ "" then some s else none
   | none => none)

/-- The GUID pass of `getElementMetadata`: for each search string in order,
find a GUID-shaped token; if found, scan the whole index in iteration order
and return the first record whose `externalId` contains the lower-cased token;
otherwise move to the next search string. -/
def guidPhase (m : MIndex) : List String → Option MetaRecord
  | [] => none
  | s :: rest =>
    match findGuid s.data with
    | some g =>
      match m.find? (fun p => extIdMatches p.2 (lcList g)) with
      | some p => some p.2
      | none => guidPhase m rest
    | none => guidPhase m rest

/-- Shallow embedding of `getElementMetadata` (the ElementMatcher).  A `none`
index stands for `metadataRef.current` being null; an empty index returns no
match just like the source's `size === 0` check. -/
def getElementMetadata (n : NodeData) (mi : Option MIndex) : Option MetaRecord :=
  match mi with
  | none => none
  | some m =>
    if m.isEmpty then none
    else
      match guidPhase m (nodeSearchStrings n) with
      | some r => some r
      | none =>
        match numericCandidate n with
        | some eid => m.lookup eid
        | none => none

/-- The GUID-shaped candidates the matcher extracts, in search-string order,
lower-cased (the IdentifierResolver's first candidate class). -/
def guidCandidates (n : NodeData) : List (List Char) :=
  (nodeSearchStrings n).filterMap (fun s => (findGuid s.data).map lcList)

/-! ## NameDeriver (`getMeshDisplayName`) and path helper -/

/-- First non-`none` result of `f` over a list, in order. -/
def firstSome {α β : Type} (f : α → Option β) : List α → Option β
  | [] => none
  | a :: rest =>
    match f a with
    | some b => some b
    | none => firstSome f rest

/-- The `material` slot as the list the source builds with
`Array.isArray(node.material) ? node.material : [node.material]`, empty when
the slot is falsy. -/
def matList : MaterialSlot → List MMaterial
  | .free => []
  | .single m => [m]
  | .many ms => ms

/-- The ancestor-name walk of `getMeshDisplayName`: up to three parents,
stopping at a node of type `Scene`; the first parent with a truthy name other
than literal "node" whose cleanup succeeds wins. -/
def ancNameWalk : List NodeData → Nat → Option String
  | [], _ => none
  | a :: rest, depth =>
    if 3 ≤ depth then none
    else if a.typ = "Scene" then none
    else
      match (if a.name ≠ "" && a.name ≠ "node" then extractMeaningfulName a.name else none) with
      | some s => some s
      | none => ancNameWalk rest (depth + 1)

/-- Step 2 of `getMeshDisplayName`: the cleaned geometry name, when truthy. -/
def gmdGeo (n : NodeData) : Option String :=
  match n.geometry with
  | some g => if g.name ≠ "" then extractMeaningfulName g.name else none
  | none => none

/-- Step 3 of `getMeshDisplayName`: the first material whose truthy name
cleans up to something non-trivial. -/
def gmdMat (n : NodeData) : Option String :=
  firstSome (fun m => if m.name ≠ "" then extractMeaningfulName m.name else none)
    (matList n.material)

/-- Step 4 of `getMeshDisplayName`: the node's own name, cleaned, unless it is
falsy or literally "node". -/
def gmdOwn (n : NodeData) : Option String :=
  if n.name ≠ "" && n.name ≠ "node" then extractMeaningfulName n.name else none

/-- Shallow embedding of `getMeshDisplayName`.  `anc` is the node's ancestor
chain, nearest parent first; `index` is the mesh ordinal the caller passes. -/
def getMeshDisplayName (n : NodeData) (anc : List NodeData) (index : Nat)
    (mi : Option MIndex) : String :=
  match getElementMetadata n mi with
  | some md => md.displayName
  | none =>
    match gmdGeo n with
    | some s => s
    | none =>
      match gmdMat n with
      | some s => s
      | none =>
        match gmdOwn n with
        | some s => s
        | none =>
          match ancNameWalk anc 0 with
          | some s => s ++ "_" ++ toString (index + 1)
          | none => "Element_" ++ n.uuid.take 8

/-- Mirror of `getNodePath`: names from the node upward while truthy, printed
root-first joined by " > ". -/
def getNodePath (n : NodeData) (anc : List NodeData) : String :=
  String.intercalate " > " ((((n :: anc).map NodeData.name).takeWhile (· ≠ "")).reverse)

/-! ## CategoryClassifier (`getCategoryFromOST`, `extractCategory`,
`extractCategoryFromNode`) -/

/-- The OST enum translation table of `getCategoryFromOST`. -/
def ostTable : List (String × String) :=
  [("OST_CurtainWallPanels", "Curtain Panels"),
   ("OST_CurtainWallMullions", "Curtain Wall Mullions"),
   ("OST_Walls", "Walls"),
   ("OST_Floors", "Floors"),
   ("OST_Roofs", "Roofs"),
   ("OST_Windows", "Windows"),
   ("OST_Doors", "Doors"),
   ("OST_Columns", "Columns"),
   ("OST_StructuralColumns", "Structural Columns"),
   ("OST_StructuralFraming", "Structural Framing"),
   ("OST_Furniture", "Furniture"),
   ("OST_GenericModel", "Generic Models")]

/-- Mirror of `getCategoryFromOST`: unmapped codes pass through unchanged. -/
def getCategoryFromOST (c : String) : String := (ostTable.lookup c).getD c

/-- The ordered category keyword table of `extractCategory`, reproduced
verbatim from the source. -/
def categoryPatterns : List (String × List String) :=
  [("Curtain Panels", ["curtain panel", "pannello", "panel"]),
   ("Curtain Wall Mullions", ["mullion", "montante", "curtain wall mullion"]),
   ("Structural Columns", ["column", "pilastri", "pillar", "post", "colum"]),
   ("Structural Framing", ["beam", "travi", "frame", "brace", "joist", "girder", "purlin"]),
   ("Structural Foundations", ["foundation", "fondazioni", "footing", "pile", "base", "plinth"]),
   ("Structural Connections", ["connection", "connessioni", "connector", "plate", "bolt", "weld", "gusset"]),
   ("Walls", ["wall", "muro", "pareti", "partition"]),
   ("Floors", ["floor", "pavimento", "slab", "deck", "pianta"]),
   ("Roofs", ["roof", "tetto", "copertura"]),
   ("Ceilings", ["ceiling", "soffitto", "soffit"]),
   ("Doors", ["door", "porta"]),
   ("Windows", ["window", "finestra"]),
   ("Stairs", ["stair", "scala", "ramp", "rampa", "step"]),
   ("Railings", ["railing", "ringhiera", "handrail", "guardrail", "balustrade"]),
   ("Specialty Equipment", ["equipment", "antenna", "device", "rru", "parabola", "apparatus"]),
   ("Generic Models", ["generic", "model"]),
   ("Structural Stiffeners", ["stiffener", "stiffening", "brace"]),
   ("Pipes", ["pipe", "tubo", "conduit", "piping"]),
   ("Ducts", ["duct", "condotto", "ductwork"]),
   ("Cable Trays", ["cable", "tray", "cavo", "conduit"]),
   ("Lighting Fixtures", ["light", "lamp", "fixture", "luminaire"]),
   ("Electrical Fixtures", ["electrical", "elettrico", "outlet", "switch"]),
   ("Electrical Equipment", ["transformer", "panel", "switchboard"]),
   ("Plumbing Fixtures", ["plumbing", "sink", "toilet", "faucet"]),
   ("Mechanical Equipment", ["hvac", "mechanical", "fan", "pump"]),
   ("Site", ["site", "planimetria", "topography", "terrain"]),
   ("Data Devices", ["data", "device", "sensor"]),
   ("Sections", ["sezione", "section"])]

/-- First category (in table order) one of whose keywords occurs in `s`. -/
def scanPatterns (s : List Char) : List (String × List String) → Option String
  | [] => none
  | (cat, pats) :: rest =>
    if pats.any (fun p => listContains s p.data) then some cat else scanPatterns s rest

/-- The ancestor walk of `extractCategory`: up to three parents, stopping at a
`Scene`-typed node, scanning each truthy parent name against the keyword
table; defaults to "Generic Models". -/
def ancCatWalk : List NodeData → Nat → String
  | [], _ => "Generic Models"
  | a :: rest, depth =>
    if 3 ≤ depth then "Generic Models"
    else if a.typ = "Scene" then "Generic Models"
    else
      match (if a.name ≠ "" then scanPatterns (lcList a.name.data) categoryPatterns else none) with
      | some c => c
      | none => ancCatWalk rest (depth + 1)

/-- Step 1 of `extractCategory`: the metadata hit's raw category, mapped
through the OST table, when truthy. -/
def ecMeta (n : NodeData) (mi : Option MIndex) : Option String :=
  match getElementMetadata n mi with
  | some md => if md.category ≠ "" then some (getCategoryFromOST md.category) else none
  | none => none

/-- The lower-cased search string of `extractCategory` step 3. -/
def ecSearchStr (n : NodeData) (displayName : String) : List Char :=
  lcList (displayName ++ " " ++ n.name ++ " " ++
    (match n.geometry with | some g => g.name | none => "") ++ " " ++
    ((matName n.material).getD "")).data

/-- Shallow embedding of `extractCategory`. -/
def extractCategory (n : NodeData) (displayName : String) (anc : List NodeData)
    (mi : Option MIndex) : String :=
  match ecMeta n mi with
  | some c => c
  | none =>
    if n.userData.isText then "Text & Annotations"
    else
      match scanPatterns (ecSearchStr n displayName) categoryPatterns with
      | some c => c
      | none => ancCatWalk anc 0

/-- Mirror of `extractCategoryFromNode` (material-name then geometry-name
pattern checks used for group labels). -/
def extractCategoryFromNode (n : NodeData) : Option String :=
  match (match matName n.material with
         | some nm =>
           if nm ≠ "" then
             let m := lcList nm.data
             if listContains m "column".data then some "Structural Columns"
             else if listContains m "beam".data then some "Structural Framing"
             else if listContains m "wall".data then some "Walls"
             else if listContains m "floor".data || listContains m "slab".data then some "Floors"
             else if listContains m "door".data then some "Doors"
             else if listContains m "window".data then some "Windows"
             else if listContains m "roof".data then some "Roofs"
             else if listContains m "foundation".data then some "Structural Foundations"
             else if listContains m "stair".data then some "Stairs"
             else if listContains m "railing".data then some "Railings"
             else if listContains m "antenna".data || listContains m "equipment".data then
               some "Specialty Equipment"
             else none
           else none
         | none => none) with
  | some c => some c
  | none =>
    match n.geometry with
    | some g =>
      if g.name ≠ "" then
        let gl := lcList g.name.data
        if listContains gl "column".data then some "Structural Columns"
        else if listContains gl "beam".data then some "Structural Framing"
        else none
      else none
    | none => none

/-! ## Text-like pre-pass of `loadModel` -/

/-- Triangle count of a geometry: index-buffer count over three, or position
count over three when unindexed (the source computes in floating point; over
the integer counts involved the rational value is exact). -/
def triCount (g : MGeometry) : ℚ :=
  match g.indexCount with
  | some ic => (ic : ℚ) / 3
  | none => (g.posCount : ℚ) / 3

/-- The per-node action of the `loadModel` pre-pass: a mesh whose triangle
count is below 100 gets `userData.isText = true`; nothing is ever unset. -/
def markTextData (d : NodeData) : NodeData :=
  if d.isMesh then
    match d.geometry with
    | some g =>
      if triCount g < 100 then { d with userData := { d.userData with isText := true } } else d
    | none => d
  else d

/-! ## JSON metadata payload and `parseJsonMetadata` -/

/-- A JSON value as produced by `JSON.parse` (numbers restricted to the
integers the metadata format uses). -/
inductive Json where
  | null
  | bool (b : Bool)
  | num (n : Int)
  | str (s : String)
  | arr (elems : List Json)
  | obj (fields : List (String × Json))

/-- Property lookup on an object's field list (JS object keys are unique). -/
def jLookup : List (String × Json) → String → Option Json
  | [], _ => none
  | (k, v) :: rest, key => if k = key then some v else jLookup rest key

/-- Property access `j[k]`: `none` models `undefined` (non-objects have none
of the properties this parser reads). -/
def jGet : Json → String → Option Json
  | .obj fs, k => jLookup fs k
  | _, _ => none

/-- JavaScript truthiness of a JSON value. -/
def jTruthy : Json → Bool
  | .null => false
  | .bool b => b
  | .num n => n ≠ 0
  | .str s => s ≠ ""
  | .arr _ => true
  | .obj _ => true

/-- Truthiness of a possibly-absent value (`undefined` is falsy). -/
def jTruthyOpt : Option Json → Bool
  | some v => jTruthy v
  | none => false

/-- Strict equality of a JSON value with a string literal. -/
def jIsStr : Json → String → Bool
  | .str s, t => s = t
  | _, _ => false

mutual
/-- JavaScript string conversion of the values flowing into template literals
and `.toString()` here: arrays join their elements with commas (null printing
as empty), plain objects print as "[object Object]". -/
def jsToString : Json → String
  | .null => "null"
  | .bool b => if b then "true" else "false"
  | .num n => toString n
  | .str s => s
  | .arr es => jsJoin es
  | .obj _ => "[object Object]"
def jsJoin : List Json → String
  | [] => ""
  | [e] => jsElemStr e
  | e :: es => jsElemStr e ++ "," ++ jsJoin es
def jsElemStr : Json → String
  | .null => ""
  | .bool b => if b then "true" else "false"
  | .num n => toString n
  | .str s => s
  | .arr es => jsJoin es
  | .obj _ => "[object Object]"
end

/-- `Map.prototype.set`: replace in place on an existing key, else append. -/
def mapSet (m : MIndex) (k : String) (v : MetaRecord) : MIndex :=
  match m with
  | [] => [(k, v)]
  | (k1, v1) :: rest => if k1 = k then (k, v) :: rest else (k1, v1) :: mapSet rest k v

/-- The scan of `obj.properties` for the literal `'Invalid group'` label
followed by the metadata section at the next position; stops at the first
label occurrence that has a successor (the loop's `break`). -/
def findInvalidGroup : List Json → Option Json
  | [] => none
  | item :: rest =>
    if jIsStr item "Invalid group" then
      match rest with
      | next :: _ => some next
      | [] => none
    else findInvalidGroup rest

/-- First truthy value among candidate property reads, JS-stringified, with
empty string as the `|| ''` default. -/
def firstTruthyStr : List (Option Json) → String
  | [] => ""
  | some v :: rest => if jTruthy v then jsToString v else firstTruthyStr rest
  | none :: rest => firstTruthyStr rest

/-- The family/type/category/familyAndType extraction from a leaf's property
list.  Returns `Except.error ()` exactly on the runtime `TypeError` the source
hits when the section after `'Invalid group'` is `null` (property access on
`null` throws in JavaScript; every other JSON value merely yields
`undefined`s). -/
def extractLeafFields (props : Option Json) : Except Unit (String × String × String × String) :=
  match props with
  | some (Json.arr items) =>
    match findInvalidGroup items with
    | some Json.null => .error ()
    | some md =>
      .ok (firstTruthyStr [jGet md "Family", jGet md "Family Name"],
           firstTruthyStr [jGet md "Type", jGet md "Type Name"],
           firstTruthyStr [jGet md "Category"],
           firstTruthyStr [jGet md "Family and Type"])
    | none => .ok ("", "", "", "")
  | _ => .ok ("", "", "", "")

/-- The leaf step of `parseJsonMetadata`'s `traverse`: when the visited object
has truthy `object` and `externalId` fields, build a `MetaRecord` and `set` it
into the map under the stringified element id. -/
def jLeafStep (fs : List (String × Json)) (m : MIndex) : Except Unit MIndex :=
  if jTruthyOpt (jLookup fs "object") && jTruthyOpt (jLookup fs "externalId") then
    match jLookup fs "object", jLookup fs "externalId" with
    | some ov, some ev => do
      let (family, typeF, category, familyAndType) ← extractLeafFields (jLookup fs "properties")
      let elementIdStr := jsToString ov
      let displayName :=
        if familyAndType ≠ "" then familyAndType
        else if family ≠ "" then family
        else if typeF ≠ "" then typeF
        else "Element_" ++ elementIdStr
      .ok (mapSet m elementIdStr
        { elementId := elementIdStr, externalId := jsToString ev, familyName := family,
          typeName := typeF, category := category, displayName := displayName })
    | _, _ => .ok m
  else .ok m

mutual
/-- The recursive `traverse` of `parseJsonMetadata`: falsy values return; an
object runs the leaf step then recurses into its `objects` array when that
field is an array; an array recurses into its elements. -/
def jTraverse : Json → MIndex → Except Unit MIndex
  | .obj fs, m => do
    let m1 ← jLeafStep fs m
    jTraverseObjects fs m1
  | .arr es, m => jTraverseList es m
  | _, m => .ok m
/-- Recursion into the object's `objects` field (the first field of that key,
JS object keys being unique), when it is an array. -/
def jTraverseObjects : List (String × Json) → MIndex → Except Unit MIndex
  | [], m => .ok m
  | (k, v) :: rest, m =>
    if k = "objects" then
      match v with
      | .arr es => jTraverseList es m
      | _ => .ok m
    else jTraverseObjects rest m
/-- `forEach(child => traverse(child))` over an array. -/
def jTraverseList : List Json → MIndex → Except Unit MIndex
  | [], m => .ok m
  | e :: es, m => do
    let m1 ← jTraverse e m
    jTraverseList es m1
end

/-- Shallow embedding of `parseJsonMetadata`: start the traversal from
`jsonData.data` when truthy, else from `jsonData` itself when it has a truthy
`objects` field, else return the empty index.  An `Except.error ()` result
models the `TypeError` escaping to the caller. -/
def parseJsonMetadata (jsonData : Json) : Except Unit MIndex :=
  if jTruthy jsonData && jTruthyOpt (jGet jsonData "data") then
    jTraverse ((jGet jsonData "data").getD .null) []
  else if jTruthy jsonData && jTruthyOpt (jGet jsonData "objects") then
    jTraverse jsonData []
  else .ok []

/-- Whether a leaf's property list triggers the `TypeError` (label
`'Invalid group'` immediately followed by `null`). -/
def leafBad (fs : List (String × Json)) : Bool :=
  (jTruthyOpt (jLookup fs "object") && jTruthyOpt (jLookup fs "externalId")) &&
    (match jLookup fs "properties" with
     | some (Json.arr items) =>
       match findInvalidGroup items with
       | some Json.null => true
       | _ => false
     | _ => false)

mutual
/-- Direct structural characterisation of the traversal's error condition:
some visited object is a bad leaf. -/
def jBad : Json → Bool
  | .obj fs => leafBad fs || jBadObjects fs
  | .arr es => jBadList es
  | _ => false
/-- Error condition within an object's `objects` field. -/
def jBadObjects : List (String × Json) → Bool
  | [] => false
  | (k, v) :: rest =>
    if k = "objects" then
      match v with
      | .arr es => jBadList es
      | _ => false
    else jBadObjects rest
/-- Error condition within an array's elements. -/
def jBadList : List Json → Bool
  | [] => false
  | e :: es => jBad e || jBadList es
end

/-- The error condition of `parseJsonMetadata` as a whole, following its root
dispatch. -/
def parseBad (jsonData : Json) : Bool :=
  if jTruthy jsonData && jTruthyOpt (jGet jsonData "data") then
    jBad ((jGet jsonData "data").getD .null)
  else if jTruthy jsonData && jTruthyOpt (jGet jsonData "objects") then
    jBad jsonData
  else false

/-- Whether a modelled computation ended in the thrown-`TypeError` state. -/
def exceptErr {a : Type} : Except Unit a → Bool
  | .error _ => true
  | .ok _ => false

/-! ## TreeBuilder (`buildModelTree`) -/

/-- One browse-tree element entry (source object literal with `id`, `name`,
`object`, `type`, `category`, `fullPath`; `typ` renders the `type` field). -/
structure Entry where
  id : String
  name : String
  object : NodeData
  typ : String
  category : String
  fullPath : String
deriving DecidableEq

/-- One browse-tree node: a structural group (`typ = "group"`, carrying its
depth) or a category bucket (`typ = "category"`). -/
structure TreeNode where
  id : String
  name : String
  count : Nat
  items : List Entry
  expanded : Bool
  typ : String
  depth : Option Nat
deriving DecidableEq

mutual
/-- All nodes of a subtree in preorder (`Object3D.traverse` order). -/
def allNodes : SNode → List SNode
  | .mk d cs => .mk d cs :: allNodesF cs
/-- Preorder concatenation over a forest. -/
def allNodesF : List SNode → List SNode
  | [] => []
  | c :: rest => allNodes c ++ allNodesF rest
end

mutual
/-- Preorder traversal carrying each node's ancestor chain (nearest first);
`anc` is the chain above the subtree root. -/
def subAnc (anc : List NodeData) : SNode → List (SNode × List NodeData)
  | .mk d cs => (.mk d cs, anc) :: subAncF (d :: anc) cs
/-- Ancestor-carrying traversal of a forest. -/
def subAncF (anc : List NodeData) : List SNode → List (SNode × List NodeData)
  | [] => []
  | c :: rest => subAnc anc c ++ subAncF anc rest
end

/-- The per-node record of the source's `hierarchyAnalysis`. `depth` counts
parents up to the enclosing render scene, hence the `+ 1` for the mounted
model root. -/
structure Info where
  depth : Nat
  name : String
  uuid : String
  typ : String
  isMesh : Bool
  isGroup : Bool
  childCount : Nat
deriving DecidableEq

/-- Build one `hierarchyAnalysis` record from a visited node. -/
def infoOf (p : SNode × List NodeData) : Info :=
  { depth := p.2.length + 1,
    name := if p.1.data.name = "" then "unnamed" else p.1.data.name,
    uuid := p.1.data.uuid,
    typ := p.1.data.typ,
    isMesh := p.1.data.isMesh,
    isGroup := p.1.data.typ = "Group" || p.1.data.typ = "Object3D",
    childCount := p.1.children.length }

/-- The full `hierarchyAnalysis` list of `buildModelTree`. -/
def sceneInfos (s : SNode) : List Info := (subAnc [] s).map infoOf

/-- Mirror of `findNodeByUuid`: the traversal keeps overwriting `found`, so
the last preorder match wins; the match is returned with its ancestor chain. -/
def findNodeByUuid (s : SNode) (u : String) : Option (SNode × List NodeData) :=
  ((subAnc [] s).filter (fun p => p.1.data.uuid = u)).getLast?

/-- The element entry both passes of `buildModelTree` push for a mesh (the
source's object literal), with `i` the running mesh ordinal. -/
def mkEntry (mi : Option MIndex) (anc : List NodeData) (d : NodeData) (i : Nat) : Entry :=
  let dn := getMeshDisplayName d anc i mi
  { id := d.uuid,
    name := dn,
    object := d,
    typ := if d.userData.isText then "text" else "mesh",
    category := extractCategory d dn anc mi,
    fullPath := getNodePath d anc }

/-- State threaded through the group pass's subtree traversal. -/
structure CollectSt where
  entries : List Entry
  processed : List String
  meshIndex : Nat
deriving DecidableEq

mutual
/-- The group pass's `groupNode.traverse`: collect meshes of the subtree that
are not the group node itself (`child !== groupNode`, expressed by uuid — the
two coincide on scenes with distinct uuids) and not yet claimed. -/
def collectNode (guuid : String) (mi : Option MIndex) (anc : List NodeData) :
    SNode → CollectSt → CollectSt
  | .mk d cs, st =>
    let st1 :=
      if d.isMesh && !(d.uuid == guuid) && !(st.processed.contains d.uuid) then
        { entries := st.entries ++ [mkEntry mi anc d st.meshIndex],
          processed := d.uuid :: st.processed,
          meshIndex := st.meshIndex + 1 }
      else st
    collectForest guuid mi (d :: anc) cs st1
/-- Forest version of `collectNode`. -/
def collectForest (guuid : String) (mi : Option MIndex) (anc : List NodeData) :
    List SNode → CollectSt → CollectSt
  | [], st => st
  | c :: rest, st => collectForest guuid mi anc rest (collectNode guuid mi anc c st)
end

/-- State threaded through the group pass over the group-node list. -/
structure GroupSt where
  tree : List TreeNode
  processed : List String
deriving DecidableEq

/-- `expandedCategories[k] || false`. -/
def lookupExpanded (expSt : List (String × Bool)) (k : String) : Bool :=
  (expSt.lookup k).getD false

/-- The fresh-mesh collection one group-pass iteration performs over the
group's subtree (the per-group `traverse`; the running mesh ordinal restarts
at 0 for each group, exactly as in the source). -/
def groupCollect (mi : Option MIndex) (gu : String) (gnode : SNode) (ganc : List NodeData)
    (processed : List String) : CollectSt :=
  collectNode gu mi ganc gnode { entries := [], processed := processed, meshIndex := 0 }

/-- The label of a pushed group node: the group's name or, for trivial names,
the first collected child's inferred category. -/
def groupLabel (gi : Info) (treeLen : Nat) (entries : List Entry) : String :=
  if gi.name = "" || gi.name = "node" || gi.name = "unnamed" then
    match entries with
    | first :: _ => (extractCategoryFromNode first.object).getD first.category
    | [] => "Group_" ++ toString (treeLen + 1)
  else gi.name

/-- The tree node one group-pass iteration pushes for a group with at least
one freshly collected entry. -/
def groupNodeOf (gi : Info) (expSt : List (String × Bool)) (treeLen : Nat)
    (entries : List Entry) : TreeNode :=
  { id := gi.uuid, name := groupLabel gi treeLen entries, count := entries.length,
    items := entries, expanded := lookupExpanded expSt (groupLabel gi treeLen entries),
    typ := "group", depth := some gi.depth }

/-- One iteration of the group pass: find the group node, collect its fresh
meshes, and (when any were found) push one group tree node. -/
def groupStep (scene : SNode) (mi : Option MIndex) (expSt : List (String × Bool))
    (st : GroupSt) (gi : Info) : GroupSt :=
  match findNodeByUuid scene gi.uuid with
  | none => st
  | some (gnode, ganc) =>
    if (groupCollect mi gi.uuid gnode ganc st.processed).entries.isEmpty then
      { tree := st.tree,
        processed := (groupCollect mi gi.uuid gnode ganc st.processed).processed }
    else
      { tree := st.tree ++ [groupNodeOf gi expSt st.tree.length
                              (groupCollect mi gi.uuid gnode ganc st.processed).entries],
        processed := (groupCollect mi gi.uuid gnode ganc st.processed).processed }

/-- State threaded through the uncategorized sweep. -/
structure UncatSt where
  entries : List Entry
  processed : List String
  idx : Nat
deriving DecidableEq

mutual
/-- The uncategorized sweep: every mesh not claimed by the group pass becomes
an entry. -/
def uncatNode (mi : Option MIndex) (anc : List NodeData) : SNode → UncatSt → UncatSt
  | .mk d cs, st =>
    let st1 :=
      if d.isMesh && !(st.processed.contains d.uuid) then
        { entries := st.entries ++ [mkEntry mi anc d st.idx],
          processed := d.uuid :: st.processed,
          idx := st.idx + 1 }
      else st
    uncatForest mi (d :: anc) cs st1
/-- Forest version of `uncatNode`. -/
def uncatForest (mi : Option MIndex) (anc : List NodeData) : List SNode → UncatSt → UncatSt
  | [], st => st
  | c :: rest, st => uncatForest mi anc rest (uncatNode mi anc c st)
end

/-- Mirror of `categories[category].push(meshItem)` over a plain JS object:
buckets appear in first-seen order, entries append within their bucket. -/
def insertByCat (acc : List (String × List Entry)) (e : Entry) : List (String × List Entry) :=
  match acc with
  | [] => [(e.category, [e])]
  | (c, es) :: rest =>
    if c = e.category then (c, es ++ [e]) :: rest else (c, es) :: insertByCat rest e

/-- Group the uncategorized entries by classifier category. -/
def groupByCat (l : List Entry) : List (String × List Entry) := l.foldl insertByCat []

/-- The result of `buildModelTree`: the browse tree plus the visibility map it
seeds (an entry per collected mesh, from the node's current `visible` flag). -/
structure BuildResult where
  tree : List TreeNode
  visibility : List (String × Bool)
deriving DecidableEq

/-- The group-pass trigger of `buildModelTree`: strictly more than one
`Group`/`Object3D`-typed node with at least one child. -/
def groupPassCondition (s : SNode) : Bool :=
  1 < ((sceneInfos s).filter (fun i => i.isGroup && 0 < i.childCount)).length

/-- The `groupNodes` list of `buildModelTree`: group-typed infos with at
least one child. -/
def builtGroups (scene : SNode) : List Info :=
  (sceneInfos scene).filter (fun i => i.isGroup && 0 < i.childCount)

/-- The state after the (conditional) group pass of `buildModelTree`. -/
def builtGroupSt (scene : SNode) (mi : Option MIndex)
    (expSt : List (String × Bool)) : GroupSt :=
  if 1 < (builtGroups scene).length then
    (builtGroups scene).foldl (groupStep scene mi expSt) { tree := [], processed := [] }
  else { tree := [], processed := [] }

/-- The state after the uncategorized sweep of `buildModelTree`. -/
def builtUncat (scene : SNode) (mi : Option MIndex)
    (expSt : List (String × Bool)) : UncatSt :=
  uncatNode mi [] scene
    { entries := [], processed := (builtGroupSt scene mi expSt).processed, idx := 0 }

/-- The category tree nodes of `buildModelTree` (only when uncategorized
meshes exist). -/
def builtCatTree (scene : SNode) (mi : Option MIndex)
    (expSt : List (String × Bool)) : List TreeNode :=
  if (builtUncat scene mi expSt).entries.isEmpty then []
  else
    (groupByCat (builtUncat scene mi expSt).entries).map (fun p =>
      { id := p.1, name := p.1, count := p.2.length, items := p.2,
        expanded := lookupExpanded expSt p.1, typ := "category", depth := none })

/-- Shallow embedding of `buildModelTree`. -/
def buildModelTree (scene : SNode) (mi : Option MIndex)
    (expSt : List (String × Bool)) : BuildResult :=
  let tree := (builtGroupSt scene mi expSt).tree ++ builtCatTree scene mi expSt
  { tree := tree,
    visibility := (tree.flatMap TreeNode.items).map (fun e => (e.id, e.object.visible)) }

/-! ## Visibility toggles and search -/

/-- Own-key lookup in the visibility/object-map state: the first and only
binding of the key. This is the own-property part of plain-object bracket
access; the prototype-chain fallthrough of `objectsMapRef.current[id]` is
modeled separately at the call site that depends on it. -/
def visGet (st : List (String × Bool)) (a : String) : Option Bool :=
  match st with
  | [] => none
  | (k, v) :: rest => if k = a then some v else visGet rest a

/-- The own-property names of `Object.prototype`: bracket access on a plain
object (`objectsMapRef.current = {}`) with one of these keys misses the own
keys but hits the prototype chain and yields a truthy value (a built-in
function, or for `__proto__` the prototype object itself) whose `visible`
field reads as `undefined`. -/
def protoKeys : List String :=
  ["constructor", "__defineGetter__", "__defineSetter__", "hasOwnProperty",
   "__lookupGetter__", "__lookupSetter__", "isPrototypeOf", "propertyIsEnumerable",
   "toString", "valueOf", "__proto__", "toLocaleString"]

/-- Write `v` at key `oid` (the mutated `visible` flag of the object the map
points to), leaving other keys alone. -/
def setVis (st : List (String × Bool)) (oid : String) (v : Bool) : List (String × Bool) :=
  st.map (fun p => if p.1 = oid then (p.1, v) else p)

/-- Shallow embedding of `toggleObjectVisibility`: flip the object's flag when
the id is an own key of the objects map. For an absent id that is an
`Object.prototype` member name, the bracket read returns the truthy inherited
member, the `if (object)` guard passes, `!object.visible` is `!undefined =
true`, and the functional state update `{...prev, [objectId]: true}` appends
a fresh binding (the write to the inherited object's `visible` field lies
outside the modeled state). Any other absent id reads `undefined` and nothing
happens. -/
def toggleObjectVisibility (vis : List (String × Bool)) (objectId : String) :
    List (String × Bool) :=
  match visGet vis objectId with
  | some v => setVis vis objectId (!v)
  | none => if protoKeys.contains objectId then vis ++ [(objectId, true)] else vis

/-- The per-member body of `toggleCategoryVisibility`'s `forEach`: members
whose id resolves in the object map get the target state written. -/
def visStep (v : Bool) (st : List (String × Bool)) (it : Entry) : List (String × Bool) :=
  match visGet st it.id with
  | some _ => setVis st it.id v
  | none => st

/-- Shallow embedding of `toggleCategoryVisibility`: find the tree node by id;
the target state is the negation of "all members present and visible"; every
member with a known id is set to it. -/
def toggleCategoryVisibility (tree : List TreeNode) (vis : List (String × Bool))
    (categoryId : String) : List (String × Bool) :=
  match tree.find? (fun c => c.id == categoryId) with
  | none => vis
  | some cat =>
    let allVisible := cat.items.all (fun it => (visGet vis it.id).getD false)
    cat.items.foldl (visStep (!allVisible)) vis

/-- The item predicate of `getFilteredModelTree`: the entry's name or its
group's name contains the lower-cased query. -/
def searchKeep (sl : List Char) (gname : String) (it : Entry) : Bool :=
  listContains (lcList it.name.data) sl || listContains (lcList gname.data) sl

/-- The per-group body of `getFilteredModelTree`'s `.map`: filter the items,
recompute the count, keep everything else. -/
def searchGroup (sl : List Char) (c : TreeNode) : TreeNode :=
  let fi := c.items.filter (searchKeep sl c.name)
  { c with items := fi, count := fi.length }

/-- Shallow embedding of `getFilteredModelTree`: a query that trims to empty
returns the tree as is; otherwise keep the entries whose name or group name
contains the (untrimmed) query case-insensitively, dropping emptied groups. -/
def getFilteredModelTree (tree : List TreeNode) (q : String) : List TreeNode :=
  if trimChars q.data = [] then tree
  else (tree.map (searchGroup (lcList q.data))).filter (fun c => !c.items.isEmpty)

/-! ## Identity lists used to state the partition invariant -/

/-- All node uuids of a scene in preorder. -/
def sceneUuids (s : SNode) : List String := (allNodes s).map (fun t => t.data.uuid)

/-- The uuids of the renderable (mesh) nodes of a subtree, in preorder. -/
def meshUuidsOf (s : SNode) : List String :=
  ((allNodes s).filter (fun t => t.data.isMesh)).map (fun t => t.data.uuid)

/-- The uuids of the renderable nodes of a forest, in preorder. -/
def meshUuidsF (cs : List SNode) : List String :=
  ((allNodesF cs).filter (fun t => t.data.isMesh)).map (fun t => t.data.uuid)

/-- All entry identities across a browse tree's items lists. -/
def treeIds (tns : List TreeNode) : List String :=
  tns.flatMap (fun t => t.items.map Entry.id)

/-- Flatten category buckets back to their entries. -/
def catFlat (bs : List (String × List Entry)) : List Entry := bs.flatMap Prod.snd

/-- Invariant carried through the group pass: the claimed set mirrors the
identities already placed in the tree, those are distinct, and all of them are
renderable nodes of the scene. -/
def GroupInv (scene : SNode) (st : GroupSt) : Prop :=
  st.processed.Perm (treeIds st.tree) ∧ (treeIds st.tree).Nodup ∧
    ∀ u ∈ treeIds st.tree, u ∈ meshUuidsOf scene

/-! ## Concrete inputs used by witnesses and counterexamples -/

/-- A plain node-data literal with the given identity fields. -/
def mkNodeData (name uuid typ : String) (isMesh : Bool) (g : Option MGeometry) : NodeData :=
  { name := name, uuid := uuid, typ := typ, isMesh := isMesh, id := 1, visible := true,
    geometry := g, material := .free, userData := {} }

/-- A leaf mesh node (300 unindexed vertices, i.e. 100 triangles). -/
def meshNode (name uuid : String) : SNode :=
  .mk (mkNodeData name uuid "Mesh" true (some ⟨"", none, 300⟩)) []

/-- A structural group node. -/
def grpNode (name uuid : String) (cs : List SNode) : SNode :=
  .mk (mkNodeData name uuid "Group" false none) cs

/-- A mounted model root (the `collada.scene` named "model"). -/
def rootNode (cs : List SNode) : SNode :=
  .mk (mkNodeData "model" "root" "Scene" false none) cs

/-- Scene for the partition witness: two groups (one trivially named), plus a
stray mesh grouped by category. -/
def exC1scene : SNode :=
  rootNode [grpNode "Level 1" "g1" [meshNode "Wall-Element_4821-mesh" "m1", meshNode "beam thing" "m2"],
            grpNode "" "g2" [meshNode "" "m3"],
            meshNode "door" "m4"]

/-- Scene refuting the claimed group-pass trigger: two group nodes with
children, but only one of them has any renderable descendant. -/
def exC2scene : SNode :=
  rootNode [grpNode "GA" "ga" [meshNode "wall one" "m"],
            grpNode "GB" "gb" [grpNode "GC" "gc" []]]

/-- Metadata record with a composite external id (spec's substring example). -/
def exC3rec : MetaRecord :=
  { elementId := "77", externalId := "00000000-0000-0000-0000-000000000001-abcdef12",
    familyName := "Basic Wall", typeName := "Generic", category := "OST_Walls",
    displayName := "Basic Wall: Generic" }

/-- One-record index for the substring-matching witness. -/
def exC3idx : MIndex := [("77", exC3rec)]

/-- Node whose name contains the bare GUID segment of `exC3rec`. -/
def exC3node : NodeData :=
  mkNodeData "x00000000-0000-0000-0000-000000000001y" "u3" "Mesh" true none

/-- Metadata payload on which `parseJsonMetadata` throws: a leaf whose
properties list has `'Invalid group'` immediately followed by `null`. -/
def exC4bad : Json :=
  .obj [("data", .obj [("object", .num 1), ("externalId", .str "e"),
                       ("properties", .arr [.str "Invalid group", .null])])]

/-- A bare mesh node (no usable names anywhere) for the fallback witness. -/
def exC5node : NodeData := mkNodeData "" "deadbeef-cafe-4821" "Mesh" true none

/-- Node named as in the spec's numeric-fallback example. -/
def exC6node : NodeData := mkNodeData "Wall-Element_4821-mesh" "u6" "Mesh" true none

/-- A 30-triangle unindexed geometry (90 position entries). -/
def exC7geom : MGeometry := ⟨"", none, 90⟩

/-- Renderable node carrying `exC7geom`, not yet flagged. -/
def exC7node : NodeData := mkNodeData "n7" "u7" "Mesh" true (some exC7geom)

/-- An element entry literal (only identity and names matter to the UI ops). -/
def entryLit (id name cat : String) : Entry :=
  { id := id, name := name, object := mkNodeData name id "Mesh" true none,
    typ := "mesh", category := cat, fullPath := "" }

/-- A single-group browse tree with three members. -/
def exC8tree : List TreeNode :=
  [{ id := "g", name := "G", count := 3,
     items := [entryLit "a" "A" "X", entryLit "b" "B" "X", entryLit "c" "C" "X"],
     expanded := false, typ := "group", depth := some 1 }]

/-- The group node of `exC8tree`. -/
def exC8cat : TreeNode :=
  { id := "g", name := "G", count := 3,
    items := [entryLit "a" "A" "X", entryLit "b" "B" "X", entryLit "c" "C" "X"],
    expanded := false, typ := "group", depth := some 1 }

/-- Visibility state with two of the three members visible. -/
def exC8vis : List (String × Bool) := [("a", true), ("b", true), ("c", false)]

/-- A one-group, one-entry tree whose strings contain no whitespace. -/
def exC9tree : List TreeNode :=
  [{ id := "A", name := "A", count := 1, items := [entryLit "e" "B" "X"],
     expanded := false, typ := "category", depth := none }]

/-- Visibility state for the unknown-identity witness. -/
def exC10vis : List (String × Bool) := [("a", true), ("b", false)]

/-! ## Lemmas about the visibility state -/

theorem setVis_cons (k : String) (w : Bool) (rest : List (String × Bool)) (b : String)
    (v : Bool) :
    setVis ((k, w) :: rest) b v = (if k = b then (k, v) else (k, w)) :: setVis rest b v := by
  by_cases hk : k = b <;> simp [setVis, hk]

theorem visGet_cons (k : String) (w : Bool) (rest : List (String × Bool)) (a : String) :
    visGet ((k, w) :: rest) a = if k = a then some w else visGet rest a := rfl

theorem setVis_visGet (st : List (String × Bool)) (b : String) (v : Bool) (a : String) :
    visGet (setVis st b v) a = (visGet st a).map (fun w => if b = a then v else w) := by
  induction st with
  | nil => simp [setVis, visGet]
  | cons p rest ih =>
    obtain ⟨k, w⟩ := p
    rw [setVis_cons, visGet_cons]
    by_cases hk : k = b
    · rw [if_pos hk, visGet_cons]
      by_cases ha : k = a
      · rw [if_pos ha, if_pos ha]
        have hba : b = a := hk.symm.trans ha
        simp [hba]
      · rw [if_neg ha, if_neg ha]
        exact ih
    · rw [if_neg hk, visGet_cons]
      by_cases ha : k = a
      · have hba : ¬ b = a := fun h => hk (ha.trans h.symm)
        rw [if_pos ha, if_pos ha]
        simp [hba]
      · rw [if_neg ha, if_neg ha]
        exact ih

theorem visStep_get_self (v : Bool) (st : List (String × Bool)) (it : Entry)
    (h : (visGet st it.id).isSome) : visGet (visStep v st it) it.id = some v := by
  unfold visStep
  cases hs : visGet st it.id with
  | none => rw [hs] at h; simp at h
  | some w => simp [setVis_visGet, hs]

theorem visStep_keeps_value (v : Bool) (st : List (String × Bool)) (it : Entry) (a : String)
    (h : visGet st a = some v) : visGet (visStep v st it) a = some v := by
  unfold visStep
  cases hs : visGet st it.id with
  | none => exact h
  | some w =>
    rw [setVis_visGet, h]
    by_cases hab : it.id = a <;> simp [hab]

theorem visStep_keeps_some (v : Bool) (st : List (String × Bool)) (it : Entry) (a : String)
    (h : (visGet st a).isSome) : (visGet (visStep v st it) a).isSome := by
  unfold visStep
  cases hs : visGet st it.id with
  | none => exact h
  | some w =>
    rw [setVis_visGet]
    cases hx : visGet st a with
    | none => rw [hx] at h; simp at h
    | some u => simp

theorem foldl_visStep_keeps (v : Bool) (items : List Entry) (st : List (String × Bool))
    (a : String) (h : visGet st a = some v) :
    visGet (items.foldl (visStep v) st) a = some v := by
  induction items generalizing st with
  | nil => simpa using h
  | cons it rest ih => exact ih (visStep v st it) (visStep_keeps_value v st it a h)

theorem foldl_visStep_sets (v : Bool) (items : List Entry) (st : List (String × Bool)) :
    ∀ it ∈ items, (visGet st it.id).isSome →
      visGet (items.foldl (visStep v) st) it.id = some v := by
  induction items generalizing st with
  | nil => intro it hmem; simp at hmem
  | cons hd rest ih =>
    intro it hmem hsome
    rcases List.mem_cons.mp hmem with heq | hmem2
    · have hs : (visGet st hd.id).isSome := by rw [heq] at hsome; exact hsome
      have h1 := visStep_get_self v st hd hs
      have h2 := foldl_visStep_keeps v rest (visStep v st hd) hd.id h1
      rw [heq]
      exact h2
    · exact ih (visStep v st hd) it hmem2 (visStep_keeps_some v st hd it.id hsome)

/-! ## Claim theorems -/

/-- C8: for every group found by id, `toggleCategoryVisibility` sets every
member whose identity is in the object map to the logical NOT of "all members
are currently present and visible". -/
theorem c8_bulk_toggle (tree : List TreeNode) (vis : List (String × Bool)) (cid : String)
    (cat : TreeNode) (hfind : tree.find? (fun c => c.id == cid) = some cat) :
    ∀ it ∈ cat.items, (visGet vis it.id).isSome →
      visGet (toggleCategoryVisibility tree vis cid) it.id =
        some (!cat.items.all (fun j => (visGet vis j.id).getD false)) := by
  intro it hmem hsome
  unfold toggleCategoryVisibility
  rw [hfind]
  exact foldl_visStep_sets _ cat.items vis it hmem hsome

/-- C8 witness: three members, two visible and one hidden; the bulk toggle
makes all three visible. -/
theorem c8_bulk_toggle_witness :
    (exC8tree.find? (fun c => c.id == "g") = some exC8cat) ∧
    (!exC8cat.items.all (fun j => (visGet exC8vis j.id).getD false)) = true ∧
    visGet (toggleCategoryVisibility exC8tree exC8vis "g") "a" = some true ∧
    visGet (toggleCategoryVisibility exC8tree exC8vis "g") "b" = some true ∧
    visGet (toggleCategoryVisibility exC8tree exC8vis "g") "c" = some true := by
  have h := c8_bulk_toggle exC8tree exC8vis "g" exC8cat (by decide)
  refine ⟨by decide, by decide, ?_, ?_, ?_⟩
  · have h2 := h (entryLit "a" "A" "X") (by decide) (by decide)
    rw [show (entryLit "a" "A" "X").id = "a" from rfl] at h2
    rw [h2]; decide
  · have h2 := h (entryLit "b" "B" "X") (by decide) (by decide)
    rw [show (entryLit "b" "B" "X").id = "b" from rfl] at h2
    rw [h2]; decide
  · have h2 := h (entryLit "c" "C" "X") (by decide) (by decide)
    rw [show (entryLit "c" "C" "X").id = "c" from rfl] at h2
    rw [h2]; decide

/-- C10 counterexample: the identity `"toString"` is not an own key of the
object map, yet toggling it is not a no-op — the plain-object bracket read
finds the inherited `Object.prototype.toString`, the truthiness guard passes,
and a fresh visibility-map binding `("toString", true)` is created (the
inherited object's `visible` field is also mutated). -/
theorem c10_unknown_identity_counterexample :
    visGet exC10vis "toString" = none ∧
    toggleObjectVisibility exC10vis "toString" = exC10vis ++ [("toString", true)] ∧
    toggleObjectVisibility exC10vis "toString" ≠ exC10vis :=
  ⟨by decide, by decide, by decide⟩

/-- C10 amended: an identity that is neither an own key of the object map nor
an `Object.prototype` member name makes `toggleObjectVisibility` a no-op; an
absent identity that is such a member name instead appends a fresh
`(oid, true)` visibility binding; a group id matching no tree node makes
`toggleCategoryVisibility` a no-op; none of them raises (all are total
functions). -/
theorem c10_unknown_identity_amended (vis : List (String × Bool)) (tree : List TreeNode)
    (oid gid : String) (h1 : visGet vis oid = none)
    (h2 : tree.find? (fun c => c.id == gid) = none) :
    toggleObjectVisibility vis oid =
      (if protoKeys.contains oid then vis ++ [(oid, true)] else vis) ∧
    toggleCategoryVisibility tree vis gid = vis := by
  constructor
  · unfold toggleObjectVisibility; rw [h1]
  · unfold toggleCategoryVisibility; rw [h2]

/-- C10 witness: a concrete unknown object id and group id leave the state
untouched, while the unknown-but-inherited id `"toString"` appends a binding. -/
theorem c10_unknown_identity_amended_witness :
    (visGet exC10vis "zz" = none ∧ exC8tree.find? (fun c => c.id == "nope") = none ∧
      protoKeys.contains "zz" = false ∧ visGet exC10vis "toString" = none ∧
      protoKeys.contains "toString" = true) ∧
    toggleObjectVisibility exC10vis "zz" = exC10vis ∧
    toggleObjectVisibility exC10vis "toString" = exC10vis ++ [("toString", true)] ∧
    toggleCategoryVisibility exC8tree exC10vis "nope" = exC10vis := by
  have h := c10_unknown_identity_amended exC10vis exC8tree "zz" "nope" (by decide) (by decide)
  have h2 := c10_unknown_identity_amended exC10vis exC8tree "toString" "nope"
    (by decide) (by decide)
  refine ⟨⟨by decide, by decide, by decide, by decide, by decide⟩, ?_, ?_, h.2⟩
  · rw [h.1]; decide
  · rw [h2.1]; decide

/-! ## Lemmas about search -/

theorem searchGroup_name (sl : List Char) (c : TreeNode) : (searchGroup sl c).name = c.name := rfl

theorem searchGroup_id (sl : List Char) (c : TreeNode) : (searchGroup sl c).id = c.id := rfl

theorem searchGroup_items (sl : List Char) (c : TreeNode) :
    (searchGroup sl c).items = c.items.filter (searchKeep sl c.name) := rfl

theorem searchGroup_idem (sl : List Char) (c : TreeNode) :
    searchGroup sl (searchGroup sl c) = searchGroup sl c := by
  have hfilt : ∀ (nm : String) (items : List Entry),
      (items.filter (searchKeep sl nm)).filter (searchKeep sl nm) =
        items.filter (searchKeep sl nm) := by
    intro nm items
    rw [List.filter_filter]
    exact List.filter_congr (fun a _ => Bool.and_self _)
  unfold searchGroup
  cases c with
  | mk id name count items expanded typ depth => simp [hfilt]

/-- C9 counterexample: for the whitespace query `" "` the source returns the
tree unchanged, keeping an entry although neither its display name nor its
group's name contains the query — the claim's "for every query" exactness
fails. -/
theorem c9_search_counterexample :
    getFilteredModelTree exC9tree " " = exC9tree ∧
    (exC9tree.map TreeNode.items) = [[entryLit "e" "B" "X"]] ∧
    searchKeep (lcList " ".data) "A" (entryLit "e" "B" "X") = false := by
  refine ⟨rfl, rfl, by decide⟩

/-- C9 amended: for queries whose trimmed form is nonempty, search keeps
exactly the entries whose display name or owning group's name contains the
query case-insensitively and drops groups left empty; the whitespace-only
query returns the tree unchanged (first conjunct shows the branch); search is
a pure function of the tree and is idempotent for every query. -/
theorem c9_search_amended (tree : List TreeNode) (q : String)
    (hq : trimChars q.data ≠ []) :
    (∀ c' ∈ getFilteredModelTree tree q, c'.items ≠ [] ∧
      ∃ c ∈ tree, c.id = c'.id ∧ c.name = c'.name ∧
        c'.items = c.items.filter (searchKeep (lcList q.data) c.name)) ∧
    (∀ c ∈ tree, ∀ e ∈ c.items, searchKeep (lcList q.data) c.name e = true →
      ∃ c' ∈ getFilteredModelTree tree q, c'.id = c.id ∧ e ∈ c'.items) ∧
    (∀ r : String, getFilteredModelTree (getFilteredModelTree tree r) r =
      getFilteredModelTree tree r) := by
  refine ⟨?_, ?_, ?_⟩
  · intro c' hc'
    unfold getFilteredModelTree at hc'
    rw [if_neg hq] at hc'
    obtain ⟨hmem, hP⟩ := List.mem_filter.mp hc'
    obtain ⟨c, hc, hFc⟩ := List.mem_map.mp hmem
    constructor
    · intro hnil
      rw [hnil] at hP
      simp at hP
    · exact ⟨c, hc, by rw [← hFc]; rfl, by rw [← hFc]; rfl, by rw [← hFc]; rfl⟩
  · intro c hc e he hkeep
    unfold getFilteredModelTree
    rw [if_neg hq]
    refine ⟨searchGroup (lcList q.data) c, ?_, rfl, ?_⟩
    · apply List.mem_filter.mpr
      refine ⟨List.mem_map_of_mem _ hc, ?_⟩
      have hmem : e ∈ (searchGroup (lcList q.data) c).items :=
        (searchGroup_items _ c) ▸ List.mem_filter.mpr ⟨he, hkeep⟩
      cases hi : (searchGroup (lcList q.data) c).items with
      | nil => rw [hi] at hmem; simp at hmem
      | cons x xs => rfl
    · rw [searchGroup_items]
      exact List.mem_filter.mpr ⟨he, hkeep⟩
  · intro r
    unfold getFilteredModelTree
    by_cases hr : trimChars r.data = []
    · rw [if_pos hr, if_pos hr]
    · rw [if_neg hr, if_neg hr]
      have hfix : ∀ x ∈ (tree.map (searchGroup (lcList r.data))).filter
          (fun c => !c.items.isEmpty), searchGroup (lcList r.data) x = x := by
        intro x hx
        obtain ⟨hmem, _⟩ := List.mem_filter.mp hx
        obtain ⟨c, _, hFc⟩ := List.mem_map.mp hmem
        rw [← hFc]
        exact searchGroup_idem _ c
      rw [List.map_congr_left hfix, List.map_id']
      apply List.filter_eq_self.mpr
      intro x hx
      exact (List.mem_filter.mp hx).2

/-- C9 amended witness: a concrete nonempty-trim query on a concrete tree. -/
theorem c9_search_amended_witness :
    (trimChars "b".data ≠ []) ∧
    (∀ c' ∈ getFilteredModelTree exC9tree "b", c'.items ≠ [] ∧
      ∃ c ∈ exC9tree, c.id = c'.id ∧ c.name = c'.name ∧
        c'.items = c.items.filter (searchKeep (lcList "b".data) c.name)) ∧
    getFilteredModelTree (getFilteredModelTree exC9tree "b") "b" =
      getFilteredModelTree exC9tree "b" := by
  have h := c9_search_amended exC9tree "b" (by decide)
  exact ⟨by decide, h.1, h.2.2 "b"⟩

/-! ## Lemmas about the metadata parser's error behaviour -/

theorem extractLeafFields_err (p : Option Json) :
    exceptErr (extractLeafFields p) =
      (match p with
       | some (Json.arr items) =>
         (match findInvalidGroup items with
          | some Json.null => true
          | _ => false)
       | _ => false) := by
  unfold extractLeafFields
  match p with
  | none => rfl
  | some .null => rfl
  | some (.bool b) => rfl
  | some (.num n) => rfl
  | some (.str s) => rfl
  | some (.obj fs) => rfl
  | some (.arr items) =>
    change exceptErr (match findInvalidGroup items with
        | some Json.null => Except.error ()
        | some md => Except.ok
            (firstTruthyStr [jGet md "Family", jGet md "Family Name"],
             firstTruthyStr [jGet md "Type", jGet md "Type Name"],
             firstTruthyStr [jGet md "Category"],
             firstTruthyStr [jGet md "Family and Type"])
        | none => Except.ok ("", "", "", "")) =
      (match findInvalidGroup items with
        | some Json.null => true
        | _ => false)
    cases hf : findInvalidGroup items with
    | none => rfl
    | some md => cases md <;> rfl

theorem jLeafStep_err (fs : List (String × Json)) (m : MIndex) :
    exceptErr (jLeafStep fs m) = leafBad fs := by
  unfold jLeafStep leafBad
  by_cases hc : (jTruthyOpt (jLookup fs "object") && jTruthyOpt (jLookup fs "externalId")) = true
  · rw [if_pos hc, hc, Bool.true_and]
    cases ho : jLookup fs "object" with
    | none => rw [ho] at hc; simp [jTruthyOpt] at hc
    | some ov =>
      cases he : jLookup fs "externalId" with
      | none => rw [he] at hc; simp [jTruthyOpt] at hc
      | some ev =>
        have hx := extractLeafFields_err (jLookup fs "properties")
        cases hq : extractLeafFields (jLookup fs "properties") with
        | error e =>
          rw [hq] at hx
          rw [← hx]
          rfl
        | ok v =>
          rw [hq] at hx
          rw [← hx]
          obtain ⟨f, t, c, ft⟩ := v
          rfl
  · rw [if_neg hc]
    have hcf : (jTruthyOpt (jLookup fs "object") && jTruthyOpt (jLookup fs "externalId")) = false :=
      Bool.not_eq_true _ ▸ (Bool.eq_false_iff.mpr (fun h => hc h))
    rw [hcf, Bool.false_and]
    rfl

mutual
theorem jTraverse_err (j : Json) (m : MIndex) : exceptErr (jTraverse j m) = jBad j := by
  cases j with
  | null => rfl
  | bool b => rfl
  | num n => rfl
  | str s => rfl
  | arr es => exact jTraverseList_err es m
  | obj fs =>
    show exceptErr (jLeafStep fs m >>= fun m1 => jTraverseObjects fs m1) =
      (leafBad fs || jBadObjects fs)
    cases hx : jLeafStep fs m with
    | error e =>
      have h2 : leafBad fs = true := by
        have h := jLeafStep_err fs m
        rw [hx] at h
        exact h.symm
      rw [h2, Bool.true_or]
      rfl
    | ok m1 =>
      have h2 : leafBad fs = false := by
        have h := jLeafStep_err fs m
        rw [hx] at h
        exact h.symm
      rw [h2, Bool.false_or]
      exact jTraverseObjects_err fs m1
theorem jTraverseObjects_err (fs : List (String × Json)) (m : MIndex) :
    exceptErr (jTraverseObjects fs m) = jBadObjects fs := by
  cases fs with
  | nil => rfl
  | cons p rest =>
    obtain ⟨k, v⟩ := p
    show exceptErr (jTraverseObjects ((k, v) :: rest) m) = jBadObjects ((k, v) :: rest)
    unfold jTraverseObjects jBadObjects
    by_cases hk : k = "objects"
    · rw [if_pos hk, if_pos hk]
      cases v with
      | arr es => exact jTraverseList_err es m
      | null => rfl
      | bool b => rfl
      | num n => rfl
      | str s => rfl
      | obj fs2 => rfl
    · rw [if_neg hk, if_neg hk]
      exact jTraverseObjects_err rest m
theorem jTraverseList_err (es : List Json) (m : MIndex) :
    exceptErr (jTraverseList es m) = jBadList es := by
  cases es with
  | nil => rfl
  | cons e rest =>
    show exceptErr (jTraverse e m >>= fun m1 => jTraverseList rest m1) =
      (jBad e || jBadList rest)
    cases hx : jTraverse e m with
    | error u =>
      have h2 : jBad e = true := by
        have h := jTraverse_err e m
        rw [hx] at h
        exact h.symm
      rw [h2, Bool.true_or]
      rfl
    | ok m1 =>
      have h2 : jBad e = false := by
        have h := jTraverse_err e m
        rw [hx] at h
        exact h.symm
      rw [h2, Bool.false_or]
      exact jTraverseList_err rest m1
end

/-- C4 counterexample: `parseJsonMetadata` raises to its caller on a metadata
payload whose element's properties list holds `'Invalid group'` immediately
followed by `null` — the claim's "never raises for any input shape" fails. -/
theorem c4_parse_totality_counterexample : parseJsonMetadata exC4bad = Except.error () := rfl

/-- C4 amended: `parseJsonMetadata` raises if and only if some visited element
record (truthy `object` and `externalId`) has a properties array containing
the label `'Invalid group'` immediately followed by `null`; on every other
input shape it returns an index, with missing fields degraded to empty
strings. -/
theorem c4_parse_totality_amended (j : Json) :
    parseJsonMetadata j = Except.error () ↔ parseBad j = true := by
  have h : exceptErr (parseJsonMetadata j) = parseBad j := by
    unfold parseJsonMetadata parseBad
    by_cases h1 : (jTruthy j && jTruthyOpt (jGet j "data")) = true
    · rw [if_pos h1, if_pos h1]
      exact jTraverse_err _ []
    · rw [if_neg h1, if_neg h1]
      by_cases h2 : (jTruthy j && jTruthyOpt (jGet j "objects")) = true
      · rw [if_pos h2, if_pos h2]
        exact jTraverse_err _ []
      · rw [if_neg h2, if_neg h2]
        rfl
  constructor
  · intro he
    rw [he] at h
    exact h.symm
  · intro hb
    rw [hb] at h
    cases hp : parseJsonMetadata j with
    | error e => cases e; rfl
    | ok v => rw [hp] at h; simp [exceptErr] at h

/-! ## Text-like threshold and digit-run lemmas -/

theorem triCount_lt (g : MGeometry) (q : ℚ) :
    triCount g < q ↔
      (match g.indexCount with
       | some ic => (ic : ℚ)
       | none => (g.posCount : ℚ)) < 3 * q := by
  unfold triCount
  cases g.indexCount with
  | some ic =>
    rw [div_lt_iff₀ (by norm_num)]
    constructor <;> intro h <;> linarith
  | none =>
    rw [div_lt_iff₀ (by norm_num)]
    constructor <;> intro h <;> linarith

/-- C7: a renderable node's triangle count is the index-buffer count over
three (the vertex count over three when unindexed, which is what `triCount`
embeds); a freshly loaded node is flagged text-like by the pre-pass exactly
when that count is below 100; and a text-like node with no metadata match is
categorized "Text & Annotations". -/
theorem c7_text_threshold (d : NodeData) (g : MGeometry)
    (hm : d.isMesh = true) (hg : d.geometry = some g) (hf : d.userData.isText = false) :
    ((markTextData d).userData.isText = true ↔ triCount g < 100) ∧
    (∀ (dn : String) (anc : List NodeData) (mi : Option MIndex),
      getElementMetadata (markTextData d) mi = none → triCount g < 100 →
      extractCategory (markTextData d) dn anc mi = "Text & Annotations") := by
  have hunfold : markTextData d =
      (if triCount g < 100 then
        { d with userData := { d.userData with isText := true } } else d) := by
    unfold markTextData
    rw [hm, if_pos rfl, hg]
  have hmark : ∀ _ : triCount g < 100,
      (markTextData d).userData.isText = true := by
    intro ht
    rw [hunfold, if_pos ht]
  constructor
  · constructor
    · intro htext
      by_contra hlt
      rw [hunfold, if_neg hlt, hf] at htext
      exact Bool.false_ne_true htext
    · exact hmark
  · intro dn anc mi hmeta hlt
    unfold extractCategory
    have hec : ecMeta (markTextData d) mi = none := by
      unfold ecMeta
      rw [hmeta]
    rw [hec, hmark hlt]
    rfl

/-- C7 witness: 30 unindexed triangles (90 vertices) get flagged and
categorized "Text & Annotations" with no metadata. -/
theorem c7_text_threshold_witness :
    (exC7node.isMesh = true ∧ exC7node.geometry = some exC7geom ∧
      exC7node.userData.isText = false) ∧
    triCount exC7geom < 100 ∧
    (markTextData exC7node).userData.isText = true ∧
    extractCategory (markTextData exC7node) "n7" [] none = "Text & Annotations" := by
  have hlt : triCount exC7geom < 100 := by
    rw [triCount_lt]
    show ((90 : ℕ) : ℚ) < 3 * 100
    norm_num
  have h := c7_text_threshold exC7node exC7geom rfl rfl rfl
  exact ⟨⟨rfl, rfl, rfl⟩, hlt, h.1.mpr hlt, h.2 "n7" [] none rfl hlt⟩

theorem takeWhile_append_ge (p : Char → Bool) (xs ys : List Char) (h : xs.all p = true) :
    xs.length ≤ ((xs ++ ys).takeWhile p).length := by
  induction xs with
  | nil => simp
  | cons x rest ih =>
    rw [List.all_cons, Bool.and_eq_true] at h
    simp only [List.cons_append, List.takeWhile_cons, h.1, List.length_cons]
    exact Nat.succ_le_succ (ih h.2)

theorem takeWhile_all (p : Char → Bool) (l : List Char) : (l.takeWhile p).all p = true := by
  induction l with
  | nil => rfl
  | cons x rest ih =>
    by_cases hx : p x = true
    · simp [List.takeWhile_cons, hx, ih]
    · simp [List.takeWhile_cons, Bool.of_not_eq_true hx]

theorem findDigitRun_found (l pre run post : List Char)
    (hsplit : l = pre ++ run ++ post) (hlen : 4 ≤ run.length)
    (hdig : run.all Char.isDigit = true) :
    ∃ r, findDigitRun l = some r ∧ 4 ≤ r.length ∧ r.all Char.isDigit = true := by
  induction pre generalizing l with
  | nil =>
    simp only [List.nil_append] at hsplit
    cases run with
    | nil => simp at hlen
    | cons c rs =>
      subst hsplit
      rw [List.cons_append]
      have hge : 4 ≤ ((c :: (rs ++ post)).takeWhile Char.isDigit).length := by
        have h1 := takeWhile_append_ge Char.isDigit (c :: rs) post hdig
        rw [List.cons_append] at h1
        exact le_trans hlen h1
      unfold findDigitRun
      rw [if_pos hge]
      exact ⟨_, rfl, hge, takeWhile_all _ _⟩
  | cons a pre1 ih =>
    subst hsplit
    rw [List.cons_append, List.cons_append]
    unfold findDigitRun
    by_cases hc : 4 ≤ ((a :: (pre1 ++ run ++ post)).takeWhile Char.isDigit).length
    · rw [if_pos hc]
      exact ⟨_, rfl, hc, takeWhile_all _ _⟩
    · rw [if_neg hc]
      exact ih (pre1 ++ run ++ post) rfl

/-- C6: for every raw string containing a run of at least four digits, the
cleanup returns "Element_" plus the regex's (first, maximal) digit run, before
any generic-token stripping; and a node so named, with no geometry or material
name and no metadata index, gets exactly that as its display name. -/
theorem c6_digit_run (s : String) (pre run post : List Char)
    (hsplit : s.data = pre ++ run ++ post) (hlen : 4 ≤ run.length)
    (hdig : run.all Char.isDigit = true) :
    ∃ r, findDigitRun s.data = some r ∧ 4 ≤ r.length ∧ r.all Char.isDigit = true ∧
      extractMeaningfulName s = some ("Element_" ++ String.mk r) ∧
      (∀ (n : NodeData) (anc : List NodeData) (i : Nat),
        n.geometry = none → n.material = .free → n.name = s →
        getMeshDisplayName n anc i none = "Element_" ++ String.mk r) := by
  obtain ⟨r, hfind, hrlen, hrdig⟩ := findDigitRun_found s.data pre run post hsplit hlen hdig
  have hsne : s ≠ "" := by
    intro h
    subst h
    have : pre ++ run ++ post = [] := hsplit.symm
    rcases List.append_eq_nil.mp this with ⟨h1, _⟩
    rcases List.append_eq_nil.mp h1 with ⟨_, h2⟩
    rw [h2] at hlen
    simp at hlen
  have hemn : extractMeaningfulName s = some ("Element_" ++ String.mk r) := by
    unfold extractMeaningfulName
    rw [if_neg hsne, hfind]
  refine ⟨r, hfind, hrlen, hrdig, hemn, ?_⟩
  intro n anc i hgeo hmat hnm
  have hnode : s ≠ "node" := by
    intro h
    rw [h] at hfind
    exact Option.noConfusion ((by decide : findDigitRun "node".data = none) ▸ hfind)
  have h1 : gmdGeo n = none := by unfold gmdGeo; rw [hgeo]
  have h2 : gmdMat n = none := by unfold gmdMat; rw [hmat]; rfl
  have h3 : gmdOwn n = some ("Element_" ++ String.mk r) := by
    unfold gmdOwn
    have hcond : (decide (n.name ≠ "") && decide (n.name ≠ "node")) = true := by
      rw [hnm]
      simp [hsne, hnode]
    rw [if_pos hcond, hnm, hemn]
  have h0 : getElementMetadata n none = none := rfl
  unfold getMeshDisplayName
  rw [h0, h1, h2, h3]

/-- C6 witness: the spec's example node name "Wall-Element_4821-mesh" yields
display name "Element_4821" with no metadata. -/
theorem c6_digit_run_witness :
    ("Wall-Element_4821-mesh".data = "Wall-Element_".data ++ "4821".data ++ "-mesh".data ∧
      4 ≤ "4821".data.length ∧ "4821".data.all Char.isDigit = true) ∧
    extractMeaningfulName "Wall-Element_4821-mesh" = some "Element_4821" ∧
    getMeshDisplayName exC6node [] 0 none = "Element_4821" := by
  obtain ⟨r, hfind, hlen, hdig, hemn, hdn⟩ :=
    c6_digit_run "Wall-Element_4821-mesh" "Wall-Element_".data "4821".data "-mesh".data
      (by decide) (by decide) (by decide)
  have hr : r = "4821".data := by
    have hx : findDigitRun "Wall-Element_4821-mesh".data = some "4821".data := by decide
    rw [hx] at hfind
    exact (Option.some.inj hfind).symm
  rw [hr] at hemn hdn
  refine ⟨⟨by decide, by decide, by decide⟩, ?_, ?_⟩
  · exact hemn.trans (by decide)
  · exact (hdn exC6node [] 0 rfl rfl rfl).trans (by decide)

/-! ## Lemmas about the GUID matching phase -/

theorem guidPhase_first_hit (m : MIndex) (strs : List String) (g : List Char)
    (pre post : List (List Char))
    (hsplit : strs.filterMap (fun s => (findGuid s.data).map lcList) = pre ++ g :: post)
    (hpre : ∀ g0 ∈ pre, m.find? (fun p => extIdMatches p.2 g0) = none)
    (hg : (m.find? (fun p => extIdMatches p.2 g)).isSome) :
    guidPhase m strs = (m.find? (fun p => extIdMatches p.2 g)).map Prod.snd := by
  induction strs generalizing pre with
  | nil =>
    rw [List.filterMap_nil] at hsplit
    exact absurd hsplit.symm (List.append_ne_nil_of_right_ne_nil pre (List.cons_ne_nil g post))
  | cons s rest ih =>
    cases hs : findGuid s.data with
    | none =>
      simp only [List.filterMap_cons, hs, Option.map_none'] at hsplit
      unfold guidPhase
      rw [hs]
      exact ih pre hsplit hpre
    | some g0 =>
      simp only [List.filterMap_cons, hs, Option.map_some'] at hsplit
      cases pre with
      | nil =>
        have hgg : g = lcList g0 := (List.cons.inj hsplit.symm).1
        subst hgg
        obtain ⟨p, hp⟩ := Option.isSome_iff_exists.mp hg
        unfold guidPhase
        rw [hs]
        show (match List.find? (fun q => extIdMatches q.2 (lcList g0)) m with
              | some q => some q.2
              | none => guidPhase m rest) = Option.map Prod.snd (List.find? (fun q => extIdMatches q.2 (lcList g0)) m)
        rw [hp]
        rfl
      | cons p0 pre1 =>
        obtain ⟨hp0, hrest⟩ := List.cons.inj hsplit
        have hnone : m.find? (fun p => extIdMatches p.2 (lcList g0)) = none := by
          rw [hp0]
          exact hpre p0 (List.mem_cons_self _ _)
        unfold guidPhase
        rw [hs]
        show (match List.find? (fun q => extIdMatches q.2 (lcList g0)) m with
              | some q => some q.2
              | none => guidPhase m rest) = Option.map Prod.snd (List.find? (fun q => extIdMatches q.2 g) m)
        rw [hnone]
        exact ih pre1 hrest (fun g1 hg1 => hpre g1 (List.mem_cons_of_mem _ hg1))

/-- C3: when `g` is the first GUID-shaped candidate (in the matcher's
search-string order) for which any record's `externalId` case-insensitively
contains the candidate, `getElementMetadata` returns the first such record in
the index's iteration order. -/
theorem c3_substring_guid (n : NodeData) (m : MIndex) (g : List Char)
    (pre post : List (List Char)) (hm : m ≠ [])
    (hsplit : guidCandidates n = pre ++ g :: post)
    (hpre : ∀ g0 ∈ pre, m.find? (fun p => extIdMatches p.2 g0) = none)
    (hg : (m.find? (fun p => extIdMatches p.2 g)).isSome) :
    getElementMetadata n (some m) = (m.find? (fun p => extIdMatches p.2 g)).map Prod.snd := by
  have hemp : m.isEmpty = false := by
    cases m with
    | nil => exact absurd rfl hm
    | cons a l => rfl
  unfold guidCandidates at hsplit
  have hguid := guidPhase_first_hit m (nodeSearchStrings n) g pre post hsplit hpre hg
  obtain ⟨p, hp⟩ := Option.isSome_iff_exists.mp hg
  unfold getElementMetadata
  show (if List.isEmpty m = true then none
        else
          match guidPhase m (nodeSearchStrings n) with
          | some r => some r
          | none =>
            match numericCandidate n with
            | some eid => List.lookup eid m
            | none => none) =
      Option.map Prod.snd (List.find? (fun p => extIdMatches p.2 g) m)
  rw [hemp]
  simp only [Bool.false_eq_true, if_false]
  rw [hguid, hp]
  rfl

/-- C3 witness: the spec's example — record with externalId
"00000000-0000-0000-0000-000000000001-abcdef12" is returned for a node whose
name contains "00000000-0000-0000-0000-000000000001". -/
theorem c3_substring_guid_witness :
    (exC3idx ≠ [] ∧
      guidCandidates exC3node = [] ++ "00000000-0000-0000-0000-000000000001".data :: [] ∧
      (exC3idx.find? (fun p =>
        extIdMatches p.2 "00000000-0000-0000-0000-000000000001".data)).isSome = true) ∧
    getElementMetadata exC3node (some exC3idx) = some exC3rec := by
  have h := c3_substring_guid exC3node exC3idx "00000000-0000-0000-0000-000000000001".data [] []
    (by decide) (by decide) (fun g0 hg0 => absurd hg0 (List.not_mem_nil g0)) (by decide)
  refine ⟨⟨by decide, by decide, by decide⟩, ?_⟩
  rw [h]
  decide

/-! ## Lemmas about the name and category fallbacks -/

theorem str_append_ne_empty_of_left (a b : String) (ha : a ≠ "") : a ++ b ≠ "" := by
  intro h
  have hdata := congrArg String.data h
  rw [String.data_append] at hdata
  exact ha (congrArg String.mk (List.append_eq_nil.mp hdata).1)

theorem extractMeaningfulName_ne_empty (s : String) (r : String)
    (h : extractMeaningfulName s = some r) : r ≠ "" := by
  unfold extractMeaningfulName at h
  split at h
  · exact Option.noConfusion h
  · split at h
    · have hr := Option.some.inj h
      rw [← hr]
      exact str_append_ne_empty_of_left _ _ (by decide)
    · split at h
      · rename_i hcond
        have hr := Option.some.inj h
        intro hempty
        rw [hempty] at hr
        have hdata := congrArg String.data hr
        have hlen : 2 < (cleanedName s).length := by
          rw [Bool.and_eq_true, Bool.and_eq_true] at hcond
          exact of_decide_eq_true hcond.1.1
        rw [show (String.mk (cleanedName s)).data = cleanedName s from rfl] at hdata
        rw [hdata] at hlen
        exact absurd hlen (by decide)
      · exact Option.noConfusion h

theorem firstSome_eq_some {α β : Type} (f : α → Option β) (l : List α) (b : β)
    (h : firstSome f l = some b) : ∃ a ∈ l, f a = some b := by
  induction l with
  | nil => exact Option.noConfusion h
  | cons x rest ih =>
    unfold firstSome at h
    cases hx : f x with
    | some y =>
      rw [hx] at h
      exact ⟨x, List.mem_cons_self _ _, hx.trans h⟩
    | none =>
      rw [hx] at h
      obtain ⟨a, ha, hfa⟩ := ih h
      exact ⟨a, List.mem_cons_of_mem _ ha, hfa⟩

theorem gmdGeo_ne_empty (n : NodeData) (s : String) (h : gmdGeo n = some s) : s ≠ "" := by
  unfold gmdGeo at h
  split at h
  · split at h
    · exact extractMeaningfulName_ne_empty _ _ h
    · exact Option.noConfusion h
  · exact Option.noConfusion h

theorem gmdMat_ne_empty (n : NodeData) (s : String) (h : gmdMat n = some s) : s ≠ "" := by
  unfold gmdMat at h
  obtain ⟨m, _, hm⟩ := firstSome_eq_some _ _ _ h
  by_cases hname : m.name ≠ ""
  · rw [if_pos hname] at hm
    exact extractMeaningfulName_ne_empty _ _ hm
  · rw [if_neg hname] at hm
    exact Option.noConfusion hm

theorem gmdOwn_ne_empty (n : NodeData) (s : String) (h : gmdOwn n = some s) : s ≠ "" := by
  unfold gmdOwn at h
  split at h
  · exact extractMeaningfulName_ne_empty _ _ h
  · exact Option.noConfusion h

theorem scanPatterns_mem (s : List Char) (tbl : List (String × List String)) (c : String)
    (h : scanPatterns s tbl = some c) : c ∈ tbl.map Prod.fst := by
  induction tbl with
  | nil => exact Option.noConfusion h
  | cons p rest ih =>
    unfold scanPatterns at h
    split at h
    · rw [List.map_cons]
      exact (Option.some.inj h) ▸ List.mem_cons_self _ _
    · exact List.mem_cons_of_mem _ (ih h)

theorem ancCatWalk_mem (anc : List NodeData) (depth : Nat) :
    ancCatWalk anc depth ∈ categoryPatterns.map Prod.fst ++ ["Generic Models"] := by
  induction anc generalizing depth with
  | nil =>
    unfold ancCatWalk
    exact List.mem_append_right _ (List.mem_cons_self _ _)
  | cons a rest ih =>
    unfold ancCatWalk
    split
    · exact List.mem_append_right _ (List.mem_cons_self _ _)
    · split
      · exact List.mem_append_right _ (List.mem_cons_self _ _)
      · split
        · rename_i c hc
          split at hc
          · exact List.mem_append_left _ (scanPatterns_mem _ _ _ hc)
          · exact Option.noConfusion hc
        · exact ih (depth + 1)

/-- C5: for every node whose matcher lookup misses (null, empty or unmatched
index), the display name is still a nonempty string, the classifier still
returns one of the fixed categories (the keyword table's labels, "Text &
Annotations", or the "Generic Models" default), and when every cleanup step
fails the cascade ends in "Element_" plus the first eight characters of the
node's identity token. -/
theorem c5_fallback_totality (n : NodeData) (anc : List NodeData) (i : Nat)
    (mi : Option MIndex) (h : getElementMetadata n mi = none) :
    getMeshDisplayName n anc i mi ≠ "" ∧
    extractCategory n (getMeshDisplayName n anc i mi) anc mi ∈
      categoryPatterns.map Prod.fst ++ ["Text & Annotations", "Generic Models"] ∧
    (gmdGeo n = none → gmdMat n = none → gmdOwn n = none → ancNameWalk anc 0 = none →
      getMeshDisplayName n anc i mi = "Element_" ++ n.uuid.take 8) := by
  refine ⟨?_, ?_, ?_⟩
  · unfold getMeshDisplayName
    rw [h]
    cases hg : gmdGeo n with
    | some s => exact gmdGeo_ne_empty n s hg
    | none =>
      cases hmt : gmdMat n with
      | some s => exact gmdMat_ne_empty n s hmt
      | none =>
        cases ho : gmdOwn n with
        | some s => exact gmdOwn_ne_empty n s ho
        | none =>
          cases ha : ancNameWalk anc 0 with
          | some s =>
            intro heq
            have hdata := congrArg String.data heq
            rw [String.data_append, String.data_append] at hdata
            obtain ⟨h1, _⟩ := List.append_eq_nil.mp hdata
            obtain ⟨_, h2⟩ := List.append_eq_nil.mp h1
            exact absurd h2 (by decide)
          | none =>
            exact str_append_ne_empty_of_left _ _ (by decide)
  · unfold extractCategory
    have hec : ecMeta n mi = none := by
      unfold ecMeta
      rw [h]
    rw [hec]
    by_cases ht : n.userData.isText = true
    · rw [ht]
      show "Text & Annotations" ∈ _
      exact List.mem_append_right _ (by simp)
    · rw [Bool.not_eq_true] at ht
      rw [ht]
      show (match scanPatterns (ecSearchStr n (getMeshDisplayName n anc i mi)) categoryPatterns with
            | some c => c
            | none => ancCatWalk anc 0) ∈ _
      cases hscan : scanPatterns (ecSearchStr n (getMeshDisplayName n anc i mi)) categoryPatterns with
      | some c =>
        exact List.mem_append_left _ (scanPatterns_mem _ _ _ hscan)
      | none =>
        have := ancCatWalk_mem anc 0
        rcases List.mem_append.mp this with hl | hr
        · exact List.mem_append_left _ hl
        · simp at hr
          rw [hr]
          exact List.mem_append_right _ (by simp)
  · intro h1 h2 h3 h4
    unfold getMeshDisplayName
    rw [h, h1, h2, h3, h4]

/-- C5 witness: a bare mesh node with a null index gets the synthetic
fallback name and the default category. -/
theorem c5_fallback_totality_witness :
    (getElementMetadata exC5node none = none) ∧
    getMeshDisplayName exC5node [] 0 none ≠ "" ∧
    extractCategory exC5node (getMeshDisplayName exC5node [] 0 none) [] none ∈
      categoryPatterns.map Prod.fst ++ ["Text & Annotations", "Generic Models"] ∧
    getMeshDisplayName exC5node [] 0 none = "Element_deadbeef" := by
  have h := c5_fallback_totality exC5node [] 0 none rfl
  refine ⟨rfl, h.1, h.2.1, ?_⟩
  have h2 := h.2.2 rfl rfl (by decide) rfl
  exact h2.trans (by decide)

/-! ## Lemmas about the scene traversals -/

mutual
theorem subAnc_map_fst (anc : List NodeData) (s : SNode) :
    (subAnc anc s).map Prod.fst = allNodes s := by
  cases s with
  | mk d cs =>
    show ((SNode.mk d cs, anc) :: subAncF (d :: anc) cs).map Prod.fst =
      SNode.mk d cs :: allNodesF cs
    rw [List.map_cons]
    exact congrArg _ (subAncF_map_fst (d :: anc) cs)
theorem subAncF_map_fst (anc : List NodeData) (cs : List SNode) :
    (subAncF anc cs).map Prod.fst = allNodesF cs := by
  cases cs with
  | nil => rfl
  | cons c rest =>
    show (subAnc anc c ++ subAncF anc rest).map Prod.fst = allNodes c ++ allNodesF rest
    rw [List.map_append, subAnc_map_fst anc c, subAncF_map_fst anc rest]
end

/-- C2 counterexample: in `exC2scene` the group pass runs (its condition
holds) and emits a group tree node, although only one structural group node
has a renderable descendant — the claimed "more than one group with at least
one renderable descendant" trigger is false on the code. -/
theorem c2_group_trigger_counterexample :
    groupPassCondition exC2scene = true ∧
    ((allNodes exC2scene).filter (fun t =>
      (decide (t.data.typ = "Group") || decide (t.data.typ = "Object3D")) &&
        (allNodes t).any (fun d => d.data.isMesh))).length = 1 ∧
    ((buildModelTree exC2scene none []).tree.map TreeNode.typ) = ["group"] :=
  ⟨by decide, by decide, rfl⟩

/-- C2 amended: the per-group tree construction runs if and only if the scene
graph contains strictly more than one `Group`/`Object3D`-typed node with at
least one child of any kind — the children need not be renderable. -/
theorem c2_group_trigger_amended (s : SNode) :
    groupPassCondition s = true ↔
      1 < ((allNodes s).filter (fun t =>
        (decide (t.data.typ = "Group") || decide (t.data.typ = "Object3D")) &&
          decide (0 < t.children.length))).length := by
  unfold groupPassCondition sceneInfos
  rw [decide_eq_true_eq]
  have hlen : (((subAnc [] s).map infoOf).filter
        (fun i => i.isGroup && decide (0 < i.childCount))).length =
      ((allNodes s).filter (fun t =>
        (decide (t.data.typ = "Group") || decide (t.data.typ = "Object3D")) &&
          decide (0 < t.children.length))).length := by
    rw [List.filter_map, List.length_map]
    rw [← subAnc_map_fst [] s, List.filter_map, List.length_map]
    congr 1
  rw [hlen]

/-! ## Lemmas towards the partition invariant -/

theorem allNodes_mk (d : NodeData) (cs : List SNode) :
    allNodes (.mk d cs) = .mk d cs :: allNodesF cs := by
  unfold allNodes
  rfl

theorem allNodesF_nil : allNodesF [] = [] := rfl

theorem allNodesF_cons (c : SNode) (rest : List SNode) :
    allNodesF (c :: rest) = allNodes c ++ allNodesF rest := rfl

theorem meshUuidsOf_mk (d : NodeData) (cs : List SNode) :
    meshUuidsOf (.mk d cs) = (if d.isMesh then [d.uuid] else []) ++ meshUuidsF cs := by
  unfold meshUuidsOf meshUuidsF
  rw [allNodes_mk, List.filter_cons]
  by_cases hm : d.isMesh = true
  · rw [if_pos (by exact hm), if_pos hm]
    rfl
  · rw [if_neg (by exact hm), if_neg hm]
    rfl

theorem meshUuidsF_nil : meshUuidsF [] = [] := rfl

theorem meshUuidsF_cons (c : SNode) (rest : List SNode) :
    meshUuidsF (c :: rest) = meshUuidsOf c ++ meshUuidsF rest := by
  unfold meshUuidsF meshUuidsOf
  rw [allNodesF_cons, List.filter_append, List.map_append]

mutual
theorem allNodes_sublist_of_mem (s t : SNode) (h : t ∈ allNodes s) :
    List.Sublist (allNodes t) (allNodes s) := by
  cases s with
  | mk d cs =>
    rw [allNodes_mk] at h
    rcases List.mem_cons.mp h with heq | hmem
    · rw [heq]
    · rw [allNodes_mk]
      exact List.Sublist.cons _ (allNodesF_sublist_of_mem cs t hmem)
theorem allNodesF_sublist_of_mem (cs : List SNode) (t : SNode) (h : t ∈ allNodesF cs) :
    List.Sublist (allNodes t) (allNodesF cs) := by
  cases cs with
  | nil => rw [allNodesF_nil] at h; exact absurd h (List.not_mem_nil t)
  | cons c rest =>
    rw [allNodesF_cons] at h ⊢
    rcases List.mem_append.mp h with hl | hr
    · exact (allNodes_sublist_of_mem c t hl).trans (List.sublist_append_left _ _)
    · exact (allNodesF_sublist_of_mem rest t hr).trans (List.sublist_append_right _ _)
end

theorem meshUuidsOf_sublist (s t : SNode) (h : t ∈ allNodes s) :
    List.Sublist (meshUuidsOf t) (meshUuidsOf s) :=
  List.Sublist.map _ (List.Sublist.filter _ (allNodes_sublist_of_mem s t h))

theorem meshUuidsOf_sublist_scene (s : SNode) :
    List.Sublist (meshUuidsOf s) (sceneUuids s) :=
  List.Sublist.map _ (List.filter_sublist _)

theorem contains_eq_decide_mem (P : List String) (u : String) :
    P.contains u = decide (u ∈ P) := by
  induction P with
  | nil => simp
  | cons x rest ih =>
    by_cases hx : u = x
    · subst hx
      simp
    · simp [hx, ih]

theorem findNodeByUuid_mem (s : SNode) (u : String) (t : SNode) (anc : List NodeData)
    (h : findNodeByUuid s u = some (t, anc)) : t ∈ allNodes s := by
  unfold findNodeByUuid at h
  have hmem : (t, anc) ∈ (subAnc [] s).filter (fun p => p.1.data.uuid = u) := by
    obtain ⟨hne, heq⟩ := List.mem_getLast?_eq_getLast (Option.mem_def.mpr h)
    rw [heq]
    exact List.getLast_mem hne
  have hmem2 : (t, anc) ∈ subAnc [] s := List.mem_of_mem_filter hmem
  have := List.mem_map_of_mem Prod.fst hmem2
  rw [subAnc_map_fst] at this
  exact this

theorem beq_str_eq_decide (u x : String) : (u == x) = decide (u = x) := by
  by_cases h : u = x <;> simp [h]

theorem contains_cons_ne (P : List String) (x u : String) (h : u ≠ x) :
    (x :: P).contains u = P.contains u := by
  rw [contains_eq_decide_mem, contains_eq_decide_mem]
  simp [List.mem_cons, h]

theorem contains_append_notleft (A P : List String) (u : String) (h : u ∉ A) :
    (A ++ P).contains u = P.contains u := by
  rw [contains_eq_decide_mem, contains_eq_decide_mem]
  simp [List.mem_append, h]

theorem mkEntry_id (mi : Option MIndex) (anc : List NodeData) (d : NodeData) (i : Nat) :
    (mkEntry mi anc d i).id = d.uuid := rfl

mutual
theorem collectNode_spec (guuid : String) (mi : Option MIndex) (anc : List NodeData)
    (t : SNode) (st : CollectSt) (hnd : (meshUuidsOf t).Nodup) :
    ∃ E : List Entry,
      collectNode guuid mi anc t st =
        { entries := st.entries ++ E,
          processed := (E.map Entry.id).reverse ++ st.processed,
          meshIndex := st.meshIndex + E.length } ∧
      E.map Entry.id = (meshUuidsOf t).filter
        (fun u => !(u == guuid) && !(st.processed.contains u)) := by
  cases t with
  | mk d cs =>
    rw [meshUuidsOf_mk] at hnd
    have hndF : (meshUuidsF cs).Nodup := hnd.of_append_right
    by_cases hcond :
        (d.isMesh && !(d.uuid == guuid) && !(st.processed.contains d.uuid)) = true
    · have hmesh : d.isMesh = true := by
        rw [Bool.and_eq_true, Bool.and_eq_true] at hcond
        exact hcond.1.1
      have hng : (!(d.uuid == guuid)) = true := by
        rw [Bool.and_eq_true, Bool.and_eq_true] at hcond
        exact hcond.1.2
      have hnp : (!(st.processed.contains d.uuid)) = true := by
        rw [Bool.and_eq_true, Bool.and_eq_true] at hcond
        exact hcond.2
      rw [if_pos hmesh] at hnd
      have hdnotin : d.uuid ∉ meshUuidsF cs := by
        rw [List.singleton_append, List.nodup_cons] at hnd
        exact hnd.1
      obtain ⟨E2, heq2, hids2⟩ := collectForest_spec guuid mi (d :: anc) cs
        { entries := st.entries ++ [mkEntry mi anc d st.meshIndex],
          processed := d.uuid :: st.processed,
          meshIndex := st.meshIndex + 1 } hndF
      dsimp only at heq2 hids2
      refine ⟨mkEntry mi anc d st.meshIndex :: E2, ?_, ?_⟩
      · show collectForest guuid mi (d :: anc) cs
          (if d.isMesh && !(d.uuid == guuid) && !(st.processed.contains d.uuid) then
            { entries := st.entries ++ [mkEntry mi anc d st.meshIndex],
              processed := d.uuid :: st.processed,
              meshIndex := st.meshIndex + 1 }
          else st) = _
        rw [if_pos hcond, heq2]
        congr 1
        · rw [List.append_assoc, List.singleton_append]
        · rw [List.map_cons, mkEntry_id, List.reverse_cons, List.append_assoc,
            List.singleton_append]
        · rw [List.length_cons]
          omega
      · rw [List.map_cons, mkEntry_id, meshUuidsOf_mk, if_pos hmesh, List.filter_append]
        have hhead : List.filter (fun u => !(u == guuid) && !(st.processed.contains u))
            [d.uuid] = [d.uuid] := by
          rw [List.filter_cons]
          rw [if_pos (by rw [hng, hnp]; rfl)]
          rfl
        rw [hhead, hids2, List.singleton_append]
        congr 1
        apply List.filter_congr
        intro u hu
        have hune : u ≠ d.uuid := fun he => hdnotin (he ▸ hu)
        rw [contains_cons_ne st.processed d.uuid u hune]
    · obtain ⟨E2, heq2, hids2⟩ := collectForest_spec guuid mi (d :: anc) cs st hndF
      refine ⟨E2, ?_, ?_⟩
      · show collectForest guuid mi (d :: anc) cs
          (if d.isMesh && !(d.uuid == guuid) && !(st.processed.contains d.uuid) then
            { entries := st.entries ++ [mkEntry mi anc d st.meshIndex],
              processed := d.uuid :: st.processed,
              meshIndex := st.meshIndex + 1 }
          else st) = _
        rw [if_neg hcond, heq2]
      · rw [meshUuidsOf_mk, List.filter_append, hids2]
        have hhead : List.filter (fun u => !(u == guuid) && !(st.processed.contains u))
            (if d.isMesh then [d.uuid] else []) = [] := by
          by_cases hm : d.isMesh = true
          · rw [if_pos hm, List.filter_cons]
            have hpred : (!(d.uuid == guuid) && !(st.processed.contains d.uuid)) = false := by
              rw [Bool.eq_false_iff]
              intro hx
              exact hcond (by rw [Bool.and_assoc, hm, hx]; rfl)
            rw [if_neg (by rw [hpred]; exact Bool.false_ne_true)]
            rfl
          · rw [if_neg hm]
            rfl
        rw [hhead, List.nil_append]
theorem collectForest_spec (guuid : String) (mi : Option MIndex) (anc : List NodeData)
    (cs : List SNode) (st : CollectSt) (hnd : (meshUuidsF cs).Nodup) :
    ∃ E : List Entry,
      collectForest guuid mi anc cs st =
        { entries := st.entries ++ E,
          processed := (E.map Entry.id).reverse ++ st.processed,
          meshIndex := st.meshIndex + E.length } ∧
      E.map Entry.id = (meshUuidsF cs).filter
        (fun u => !(u == guuid) && !(st.processed.contains u)) := by
  cases cs with
  | nil =>
    refine ⟨[], ?_, by rw [meshUuidsF_nil]; rfl⟩
    show st = _
    cases st
    simp
  | cons c rest =>
    rw [meshUuidsF_cons] at hnd
    obtain ⟨hnd1, hnd2, hdisj⟩ := List.nodup_append.mp hnd
    obtain ⟨E1, heq1, hids1⟩ := collectNode_spec guuid mi anc c st hnd1
    obtain ⟨E2, heq2, hids2⟩ := collectForest_spec guuid mi anc rest
      (collectNode guuid mi anc c st) hnd2
    rw [heq1] at heq2 hids2
    dsimp only at heq2 hids2
    refine ⟨E1 ++ E2, ?_, ?_⟩
    · show collectForest guuid mi anc rest (collectNode guuid mi anc c st) = _
      rw [heq1, heq2]
      congr 1
      · rw [List.append_assoc]
      · rw [List.map_append, List.reverse_append, List.append_assoc]
      · rw [List.length_append]
        omega
    · have hsub1 : ∀ u ∈ E1.map Entry.id, u ∈ meshUuidsOf c := by
        intro u hu
        rw [hids1] at hu
        exact List.mem_of_mem_filter hu
      rw [meshUuidsF_cons, List.filter_append, List.map_append, hids1]
      congr 1
      rw [hids2]
      apply List.filter_congr
      intro u hu
      have hcontains : ((E1.map Entry.id).reverse ++ st.processed).contains u =
          st.processed.contains u := by
        apply contains_append_notleft
        rw [List.mem_reverse]
        intro hmem
        exact (hdisj (hsub1 u hmem) hu).elim
      rw [hcontains]
end

mutual
theorem uncatNode_spec (mi : Option MIndex) (anc : List NodeData)
    (t : SNode) (st : UncatSt) (hnd : (meshUuidsOf t).Nodup) :
    ∃ E : List Entry,
      uncatNode mi anc t st =
        { entries := st.entries ++ E,
          processed := (E.map Entry.id).reverse ++ st.processed,
          idx := st.idx + E.length } ∧
      E.map Entry.id = (meshUuidsOf t).filter (fun u => !(st.processed.contains u)) := by
  cases t with
  | mk d cs =>
    rw [meshUuidsOf_mk] at hnd
    have hndF : (meshUuidsF cs).Nodup := hnd.of_append_right
    by_cases hcond : (d.isMesh && !(st.processed.contains d.uuid)) = true
    · have hmesh : d.isMesh = true := by
        rw [Bool.and_eq_true] at hcond
        exact hcond.1
      have hnp : (!(st.processed.contains d.uuid)) = true := by
        rw [Bool.and_eq_true] at hcond
        exact hcond.2
      rw [if_pos hmesh] at hnd
      have hdnotin : d.uuid ∉ meshUuidsF cs := by
        rw [List.singleton_append, List.nodup_cons] at hnd
        exact hnd.1
      obtain ⟨E2, heq2, hids2⟩ := uncatForest_spec mi (d :: anc) cs
        { entries := st.entries ++ [mkEntry mi anc d st.idx],
          processed := d.uuid :: st.processed,
          idx := st.idx + 1 } hndF
      dsimp only at heq2 hids2
      refine ⟨mkEntry mi anc d st.idx :: E2, ?_, ?_⟩
      · show uncatForest mi (d :: anc) cs
          (if d.isMesh && !(st.processed.contains d.uuid) then
            { entries := st.entries ++ [mkEntry mi anc d st.idx],
              processed := d.uuid :: st.processed,
              idx := st.idx + 1 }
          else st) = _
        rw [if_pos hcond, heq2]
        congr 1
        · rw [List.append_assoc, List.singleton_append]
        · rw [List.map_cons, mkEntry_id, List.reverse_cons, List.append_assoc,
            List.singleton_append]
        · rw [List.length_cons]
          omega
      · rw [List.map_cons, mkEntry_id, meshUuidsOf_mk, if_pos hmesh, List.filter_append]
        have hhead : List.filter (fun u => !(st.processed.contains u)) [d.uuid] = [d.uuid] := by
          rw [List.filter_cons]
          rw [if_pos (by rw [hnp])]
          rfl
        rw [hhead, hids2, List.singleton_append]
        congr 1
        apply List.filter_congr
        intro u hu
        have hune : u ≠ d.uuid := fun he => hdnotin (he ▸ hu)
        rw [contains_cons_ne st.processed d.uuid u hune]
    · obtain ⟨E2, heq2, hids2⟩ := uncatForest_spec mi (d :: anc) cs st hndF
      refine ⟨E2, ?_, ?_⟩
      · show uncatForest mi (d :: anc) cs
          (if d.isMesh && !(st.processed.contains d.uuid) then
            { entries := st.entries ++ [mkEntry mi anc d st.idx],
              processed := d.uuid :: st.processed,
              idx := st.idx + 1 }
          else st) = _
        rw [if_neg hcond, heq2]
      · rw [meshUuidsOf_mk, List.filter_append, hids2]
        have hhead : List.filter (fun u => !(st.processed.contains u))
            (if d.isMesh then [d.uuid] else []) = [] := by
          by_cases hm : d.isMesh = true
          · rw [if_pos hm, List.filter_cons]
            have hpred : (!(st.processed.contains d.uuid)) = false := by
              rw [Bool.eq_false_iff]
              intro hx
              exact hcond (by rw [hm, hx]; rfl)
            rw [if_neg (by rw [hpred]; exact Bool.false_ne_true)]
            rfl
          · rw [if_neg hm]
            rfl
        rw [hhead, List.nil_append]
theorem uncatForest_spec (mi : Option MIndex) (anc : List NodeData)
    (cs : List SNode) (st : UncatSt) (hnd : (meshUuidsF cs).Nodup) :
    ∃ E : List Entry,
      uncatForest mi anc cs st =
        { entries := st.entries ++ E,
          processed := (E.map Entry.id).reverse ++ st.processed,
          idx := st.idx + E.length } ∧
      E.map Entry.id = (meshUuidsF cs).filter (fun u => !(st.processed.contains u)) := by
  cases cs with
  | nil =>
    refine ⟨[], ?_, by rw [meshUuidsF_nil]; rfl⟩
    show st = _
    cases st
    simp
  | cons c rest =>
    rw [meshUuidsF_cons] at hnd
    obtain ⟨hnd1, hnd2, hdisj⟩ := List.nodup_append.mp hnd
    obtain ⟨E1, heq1, hids1⟩ := uncatNode_spec mi anc c st hnd1
    obtain ⟨E2, heq2, hids2⟩ := uncatForest_spec mi anc rest (uncatNode mi anc c st) hnd2
    rw [heq1] at heq2 hids2
    dsimp only at heq2 hids2
    refine ⟨E1 ++ E2, ?_, ?_⟩
    · show uncatForest mi anc rest (uncatNode mi anc c st) = _
      rw [heq1, heq2]
      congr 1
      · rw [List.append_assoc]
      · rw [List.map_append, List.reverse_append, List.append_assoc]
      · rw [List.length_append]
        omega
    · have hsub1 : ∀ u ∈ E1.map Entry.id, u ∈ meshUuidsOf c := by
        intro u hu
        rw [hids1] at hu
        exact List.mem_of_mem_filter hu
      rw [meshUuidsF_cons, List.filter_append, List.map_append, hids1]
      congr 1
      rw [hids2]
      apply List.filter_congr
      intro u hu
      have hcontains : ((E1.map Entry.id).reverse ++ st.processed).contains u =
          st.processed.contains u := by
        apply contains_append_notleft
        rw [List.mem_reverse]
        intro hmem
        exact (hdisj (hsub1 u hmem) hu).elim
      rw [hcontains]
end

theorem treeIds_nil : treeIds [] = [] := rfl

theorem treeIds_cons (t : TreeNode) (ts : List TreeNode) :
    treeIds (t :: ts) = t.items.map Entry.id ++ treeIds ts := rfl

theorem treeIds_append (a b : List TreeNode) : treeIds (a ++ b) = treeIds a ++ treeIds b :=
  List.flatMap_append a b _

theorem treeIds_singleton (t : TreeNode) : treeIds [t] = t.items.map Entry.id := by
  rw [treeIds_cons, treeIds_nil, List.append_nil]

theorem groupNodeOf_items (gi : Info) (expSt : List (String × Bool)) (n : Nat)
    (E : List Entry) : (groupNodeOf gi expSt n E).items = E := rfl

/-- One group-pass iteration preserves the partition invariant. -/
theorem groupStep_inv (scene : SNode) (mi : Option MIndex) (expSt : List (String × Bool))
    (st : GroupSt) (gi : Info) (hscene : (meshUuidsOf scene).Nodup)
    (hinv : GroupInv scene st) : GroupInv scene (groupStep scene mi expSt st gi) := by
  obtain ⟨h1, h2, h3⟩ := hinv
  unfold groupStep
  cases hf : findNodeByUuid scene gi.uuid with
  | none => exact ⟨h1, h2, h3⟩
  | some p =>
    obtain ⟨gnode, ganc⟩ := p
    have hmemall : gnode ∈ allNodes scene := findNodeByUuid_mem scene gi.uuid gnode ganc hf
    have hnd : (meshUuidsOf gnode).Nodup :=
      List.Nodup.sublist (meshUuidsOf_sublist scene gnode hmemall) hscene
    obtain ⟨E, heq, hids⟩ := collectNode_spec gi.uuid mi ganc gnode
      { entries := [], processed := st.processed, meshIndex := 0 } hnd
    dsimp only at heq hids
    rw [List.nil_append, Nat.zero_add] at heq
    have hc : groupCollect mi gi.uuid gnode ganc st.processed =
        { entries := E, processed := (E.map Entry.id).reverse ++ st.processed,
          meshIndex := E.length } := heq
    show GroupInv scene
      (if (groupCollect mi gi.uuid gnode ganc st.processed).entries.isEmpty = true then
        { tree := st.tree,
          processed := (groupCollect mi gi.uuid gnode ganc st.processed).processed }
      else
        { tree := st.tree ++ [groupNodeOf gi expSt st.tree.length
            (groupCollect mi gi.uuid gnode ganc st.processed).entries],
          processed := (groupCollect mi gi.uuid gnode ganc st.processed).processed })
    rw [hc]
    dsimp only
    by_cases hE : E.isEmpty = true
    · rw [if_pos hE]
      have hEnil : E = [] := by
        cases E with
        | nil => rfl
        | cons e rest => exact absurd hE (by simp)
      rw [hEnil]
      dsimp only [List.map_nil, List.reverse_nil, List.nil_append]
      exact ⟨h1, h2, h3⟩
    · rw [if_neg hE]
      refine ⟨?_, ?_, ?_⟩
      · show ((E.map Entry.id).reverse ++ st.processed).Perm
          (treeIds (st.tree ++ [groupNodeOf gi expSt st.tree.length E]))
        rw [treeIds_append, treeIds_singleton, groupNodeOf_items]
        exact (((List.reverse_perm _).append_right _).trans
          List.perm_append_comm).trans (h1.append_right _)
      · show (treeIds (st.tree ++ [groupNodeOf gi expSt st.tree.length E])).Nodup
        rw [treeIds_append, treeIds_singleton, groupNodeOf_items]
        refine List.nodup_append.mpr ⟨h2, ?_, ?_⟩
        · rw [hids]
          exact hnd.filter _
        · intro a ha hamem
          rw [hids] at hamem
          have hpred := List.of_mem_filter hamem
          rw [Bool.and_eq_true] at hpred
          have hnc := hpred.2
          rw [Bool.not_eq_true', contains_eq_decide_mem] at hnc
          exact absurd (h1.mem_iff.mpr ha) (of_decide_eq_false hnc)
      · show ∀ u ∈ treeIds (st.tree ++ [groupNodeOf gi expSt st.tree.length E]),
          u ∈ meshUuidsOf scene
        rw [treeIds_append, treeIds_singleton, groupNodeOf_items]
        intro u hu
        rw [List.mem_append] at hu
        cases hu with
        | inl hl => exact h3 u hl
        | inr hr =>
          rw [hids] at hr
          exact (meshUuidsOf_sublist scene gnode hmemall).subset
            (List.mem_of_mem_filter hr)

/-- The whole group pass preserves the partition invariant. -/
theorem groupFold_inv (scene : SNode) (mi : Option MIndex) (expSt : List (String × Bool))
    (gis : List Info) (st : GroupSt) (hscene : (meshUuidsOf scene).Nodup)
    (hinv : GroupInv scene st) :
    GroupInv scene (gis.foldl (groupStep scene mi expSt) st) := by
  induction gis generalizing st with
  | nil => exact hinv
  | cons g rest ih =>
    exact ih (groupStep scene mi expSt st g) (groupStep_inv scene mi expSt st g hscene hinv)

theorem groupInit_inv (scene : SNode) : GroupInv scene { tree := [], processed := [] } := by
  refine ⟨List.Perm.refl _, List.nodup_nil, ?_⟩
  intro u hu
  exact absurd hu (List.not_mem_nil u)

/-- The state entering the uncategorized sweep satisfies the invariant. -/
theorem builtGroupSt_inv (scene : SNode) (mi : Option MIndex) (expSt : List (String × Bool))
    (hscene : (meshUuidsOf scene).Nodup) :
    GroupInv scene (builtGroupSt scene mi expSt) := by
  unfold builtGroupSt
  split
  · exact groupFold_inv scene mi expSt (builtGroups scene) _ hscene (groupInit_inv scene)
  · exact groupInit_inv scene

theorem catFlat_nil : catFlat [] = [] := rfl

theorem catFlat_cons (p : String × List Entry) (rest : List (String × List Entry)) :
    catFlat (p :: rest) = p.2 ++ catFlat rest := rfl

/-- Inserting an entry into the category buckets appends it, up to order. -/
theorem insertByCat_perm (acc : List (String × List Entry)) (e : Entry) :
    (catFlat (insertByCat acc e)).Perm (catFlat acc ++ [e]) := by
  induction acc with
  | nil => simp [insertByCat, catFlat]
  | cons p rest ih =>
    obtain ⟨c, es⟩ := p
    unfold insertByCat
    by_cases hc : c = e.category
    · rw [if_pos hc, catFlat_cons, catFlat_cons]
      dsimp only
      rw [List.append_assoc, List.append_assoc]
      exact (List.perm_append_comm.append_left es).trans (List.Perm.refl _)
    · rw [if_neg hc, catFlat_cons, catFlat_cons]
      dsimp only
      rw [List.append_assoc]
      exact ih.append_left es

/-- Folding entries into the buckets appends them all, up to order. -/
theorem foldl_insertByCat_perm (l : List Entry) :
    ∀ acc, (catFlat (l.foldl insertByCat acc)).Perm (catFlat acc ++ l) := by
  induction l with
  | nil =>
    intro acc
    rw [List.foldl_nil, List.append_nil]
  | cons e rest ih =>
    intro acc
    rw [List.foldl_cons]
    refine (ih (insertByCat acc e)).trans ?_
    refine ((insertByCat_perm acc e).append_right rest).trans ?_
    rw [List.append_assoc, List.singleton_append]

/-- Flattening the category buckets is a permutation of the entry list. -/
theorem groupByCat_perm (l : List Entry) : (catFlat (groupByCat l)).Perm l := by
  have h := foldl_insertByCat_perm l []
  rw [catFlat_nil, List.nil_append] at h
  exact h

/-- The identities of the category nodes are exactly those of the flattened
buckets. -/
theorem treeIds_catNodes (expSt : List (String × Bool)) (bs : List (String × List Entry)) :
    treeIds (bs.map (fun p =>
      ({ id := p.1, name := p.1, count := p.2.length, items := p.2,
         expanded := lookupExpanded expSt p.1, typ := "category",
         depth := none } : TreeNode))) = (catFlat bs).map Entry.id := by
  induction bs with
  | nil => rfl
  | cons p rest ih =>
    rw [List.map_cons, treeIds_cons, ih, catFlat_cons, List.map_append]

theorem buildModelTree_tree (scene : SNode) (mi : Option MIndex)
    (expSt : List (String × Bool)) :
    (buildModelTree scene mi expSt).tree =
      (builtGroupSt scene mi expSt).tree ++ builtCatTree scene mi expSt := rfl

/-- A distinct prefix followed by the not-yet-seen remainder is a permutation
of the whole. -/
theorem perm_filter_partition (d l : List String) (hd : d.Nodup) (hl : l.Nodup)
    (hsub : ∀ x ∈ d, x ∈ l) :
    (d ++ l.filter (fun u => !(decide (u ∈ d)))).Perm l := by
  rw [List.perm_iff_count]
  intro a
  rw [List.count_append]
  by_cases hmem : a ∈ d
  · have hc1 : List.count a d = 1 := List.count_eq_one_of_mem hd hmem
    have hc2 : List.count a (l.filter (fun u => !(decide (u ∈ d)))) = 0 := by
      rw [List.count_eq_zero]
      intro hf
      have := List.of_mem_filter hf
      simp [hmem] at this
    have hc3 : List.count a l = 1 := List.count_eq_one_of_mem hl (hsub a hmem)
    omega
  · have hc1 : List.count a d = 0 := List.count_eq_zero.mpr hmem
    have hc2 : List.count a (l.filter (fun u => !(decide (u ∈ d)))) = List.count a l := by
      apply List.count_filter
      simp [hmem]
    omega

/-- C1: on a scene with distinct uuids, the identities collected across all
tree nodes' items are a permutation of the renderable (mesh) uuids of the
scene — every renderable appears in exactly one group or category bucket. -/
theorem c1_partition (scene : SNode) (mi : Option MIndex) (expSt : List (String × Bool))
    (h : (sceneUuids scene).Nodup) :
    (treeIds (buildModelTree scene mi expSt).tree).Perm (meshUuidsOf scene) := by
  have hmesh : (meshUuidsOf scene).Nodup :=
    List.Nodup.sublist (meshUuidsOf_sublist_scene scene) h
  obtain ⟨h1, h2, h3⟩ := builtGroupSt_inv scene mi expSt hmesh
  have hpredfun : (fun u => !((builtGroupSt scene mi expSt).processed.contains u)) =
      (fun u => !(decide (u ∈ treeIds (builtGroupSt scene mi expSt).tree))) := by
    funext u
    rw [contains_eq_decide_mem, decide_eq_decide.mpr h1.mem_iff]
  obtain ⟨E, heqU, hidsU⟩ := uncatNode_spec mi [] scene
    { entries := [], processed := (builtGroupSt scene mi expSt).processed, idx := 0 } hmesh
  dsimp only at heqU hidsU
  rw [List.nil_append, Nat.zero_add] at heqU
  rw [hpredfun] at hidsU
  have hu : builtUncat scene mi expSt =
      { entries := E,
        processed := (E.map Entry.id).reverse ++ (builtGroupSt scene mi expSt).processed,
        idx := E.length } := heqU
  have hcatperm : (treeIds (builtCatTree scene mi expSt)).Perm
      ((meshUuidsOf scene).filter
        (fun u => !(decide (u ∈ treeIds (builtGroupSt scene mi expSt).tree)))) := by
    unfold builtCatTree
    rw [hu]
    dsimp only
    by_cases hE : E.isEmpty = true
    · rw [if_pos hE]
      have hEnil : E = [] := by
        cases E with
        | nil => rfl
        | cons e rest => exact absurd hE (by simp)
      rw [hEnil, List.map_nil] at hidsU
      rw [treeIds_nil, ← hidsU]
    · rw [if_neg hE, treeIds_catNodes, ← hidsU]
      exact (groupByCat_perm E).map Entry.id
  rw [buildModelTree_tree, treeIds_append]
  refine (hcatperm.append_left _).trans ?_
  exact perm_filter_partition (treeIds (builtGroupSt scene mi expSt).tree)
    (meshUuidsOf scene) h2 hmesh h3

theorem c1_partition_witness :
    (sceneUuids exC1scene).Nodup ∧
      (treeIds (buildModelTree exC1scene none []).tree).Perm (meshUuidsOf exC1scene) :=
  ⟨by decide, c1_partition exC1scene none [] (by decide)⟩
